import Mathlib

/-!
# memtrack: a heap-allocation ledger

Shallow embedding of `src/memtrack.c`.

* The singly linked list hanging off `g_head` is a `List mt_record`
  (the `next` field is the list structure itself).
* `size_t` values are natural numbers; every arithmetic operation the source
  performs on them is reduced modulo `2 ^ size_bits`.
* The answers of the C library (`malloc`) are arguments of the embedded
  functions; calls into the C library (`malloc`, `free`, `atexit`,
  `fprintf(stderr, ...)`) are recorded, in program order, as a list of
  `Effect`s returned next to the new ledger state.
-/

namespace Memtrack

/-! ## Data model -/

/-- Values of type `void *`; the null pointer is address `0`. -/
abbrev Ptr := Nat

/-- The null pointer. -/
def NULL : Ptr := 0

/-- Implementation-defined parts of the C target that `memtrack.c` relies on:
the width of `size_t` and the text `fprintf` produces for `%p`. -/
structure Target where
  size_bits : Nat
  fmt_ptr : Ptr → String

/-- Number of values of `size_t`, that is `SIZE_MAX + 1`. -/
def Target.size_mod (T : Target) : Nat := 2 ^ T.size_bits

/-- Unsigned `size_t` addition `a + b` (wraps around). -/
def size_add (T : Target) (a b : Nat) : Nat := (a + b) % T.size_mod

/-- Unsigned `size_t` subtraction `a - b` (wraps around). -/
def size_sub (T : Target) (a b : Nat) : Nat :=
  (((a : Int) - (b : Int)) % (T.size_mod : Int)).toNat

/-- Record `mt_record_t` without its `next` link. -/
structure mt_record where
  ptr : Ptr
  size : Nat
  file : String
  line : Int
deriving DecidableEq

/-- Calls into the C library made by the tracker. -/
inductive Effect where
  | atexit_mt_report
  | malloc_user (size : Nat) (result : Ptr)
  | malloc_record (ok : Bool)
  | free_user (p : Ptr)
  | free_record (r : mt_record)
  | fprintf_stderr (text : String)
deriving DecidableEq

/-- The file-scope variables of `memtrack.c`. -/
structure Ledger where
  g_head : List mt_record
  g_live_blocks : Nat
  g_live_bytes : Nat
  g_report_registered : Int
deriving DecidableEq

/-- State at program start: the static initialisers. -/
def Ledger.initial : Ledger :=
  { g_head := [], g_live_blocks := 0, g_live_bytes := 0, g_report_registered := 0 }

/-! ## mt_malloc -/

/-- First statement of `mt_malloc`: register `mt_report` with `atexit` unless the
flag is already set. -/
def register_report (s : Ledger) : Ledger × List Effect :=
  if s.g_report_registered = 0 then
    ({ s with g_report_registered := 1 }, [Effect.atexit_mt_report])
  else
    (s, [])

/-- Function `mt_malloc(size, file, line)`. `user_block` is what `malloc(size)`
answers and `record_ok` says whether `malloc(sizeof(mt_record_t))` succeeds (it
is consulted only when the first allocation succeeded). -/
def mt_malloc (T : Target) (s : Ledger) (size : Nat) (file : String) (line : Int)
    (user_block : Ptr) (record_ok : Bool) : Ptr × Ledger × List Effect :=
  let s1 := (register_report s).1
  let e1 := (register_report s).2
  let ptr := user_block
  if ptr = NULL then
    (NULL, s1, e1 ++ [Effect.malloc_user size ptr])
  else if record_ok = false then
    (NULL, s1, e1 ++ [Effect.malloc_user size ptr, Effect.malloc_record false,
      Effect.free_user ptr])
  else
    let record : mt_record := { ptr := ptr, size := size, file := file, line := line }
    (ptr,
     { s1 with
       g_head := record :: s1.g_head
       g_live_blocks := size_add T s1.g_live_blocks 1
       g_live_bytes := size_add T s1.g_live_bytes size },
     e1 ++ [Effect.malloc_user size ptr, Effect.malloc_record true])

/-! ## mt_free -/

/-- The `while` loop of `mt_free`: walk the list from the head, stop at the first
record whose `ptr` is the searched address and unlink it. The answer is the
unlinked record with the remaining list, or `none` when the walk reaches the end. -/
def mt_free_scan (ptr : Ptr) : List mt_record → Option (mt_record × List mt_record)
  | [] => none
  | current :: next =>
    if current.ptr = ptr then
      some (current, next)
    else
      match mt_free_scan ptr next with
      | some (found, rest) => some (found, current :: rest)
      | none => none

/-- Text of the warning printed for an address without a record. -/
def warning_text (T : Target) (ptr : Ptr) : String :=
  "[memtrack] Warning: free(" ++ (T.fmt_ptr ptr ++ ") not found in tracker records\n")

/-- Function `mt_free(ptr)`. -/
def mt_free (T : Target) (s : Ledger) (ptr : Ptr) : Ledger × List Effect :=
  if ptr = NULL then
    (s, [Effect.free_user NULL])
  else
    match mt_free_scan ptr s.g_head with
    | some (current, rest) =>
      ({ s with
         g_head := rest
         g_live_blocks := size_sub T s.g_live_blocks 1
         g_live_bytes := size_sub T s.g_live_bytes current.size },
       [Effect.free_record current, Effect.free_user ptr])
    | none =>
      (s, [Effect.fprintf_stderr (warning_text T ptr), Effect.free_user ptr])

/-! ## mt_report -/

/-- Text of the message for an empty list. -/
def no_leaks_text : String := "[memtrack] No leaks detected.\n"

/-- Rule made of `=` characters. -/
def rule_eq_text : String := "========================================\n"

/-- Rule made of `-` characters. -/
def rule_dash_text : String := "----------------------------------------\n"

/-- Title line of the report. -/
def title_text : String := "[memtrack] MEMORY LEAK REPORT\n"

/-- Text of `"Leak #%zu: ptr=%p size=%zu allocated at %s:%d\n"`. -/
def leak_line (T : Target) (leaks : Nat) (cur : mt_record) : String :=
  "Leak #" ++ (toString leaks ++ (": ptr=" ++ (T.fmt_ptr cur.ptr ++ (" size=" ++
    (toString cur.size ++ (" allocated at " ++ (cur.file ++ (":" ++
    (toString cur.line ++ "\n")))))))))

/-- Text of `"Leaked blocks: %zu\n"`. -/
def blocks_line (leaks : Nat) : String := "Leaked blocks: " ++ (toString leaks ++ "\n")

/-- Text of `"Leaked bytes : %zu\n"`. -/
def bytes_line (bytes : Nat) : String := "Leaked bytes : " ++ (toString bytes ++ "\n")

/-- The `for` loop of `mt_report`, started with the current values of the locals
`leaks` and `bytes`: the final values of both and the lines printed. -/
def mt_report_loop (T : Target) : List mt_record → Nat → Nat → Nat × Nat × List Effect
  | [], leaks, bytes => (leaks, bytes, [])
  | cur :: next, leaks, bytes =>
    let leaks1 := size_add T leaks 1
    let bytes1 := size_add T bytes cur.size
    let r := mt_report_loop T next leaks1 bytes1
    (r.1, r.2.1, Effect.fprintf_stderr (leak_line T leaks1 cur) :: r.2.2)

/-- Function `mt_report()`. It assigns to no file-scope variable, so the ledger
is an input only. -/
def mt_report (T : Target) (s : Ledger) : List Effect :=
  if s.g_head = [] then
    [Effect.fprintf_stderr no_leaks_text]
  else
    let r := mt_report_loop T s.g_head 0 0
    [Effect.fprintf_stderr rule_eq_text,
     Effect.fprintf_stderr title_text,
     Effect.fprintf_stderr rule_dash_text]
    ++ r.2.2 ++
    [Effect.fprintf_stderr rule_dash_text,
     Effect.fprintf_stderr (blocks_line r.1),
     Effect.fprintf_stderr (bytes_line r.2.1),
     Effect.fprintf_stderr rule_eq_text]

/-! ## Call sequences -/

/-- One call of the public interface, together with the answers of the C library
it will receive. -/
inductive Op where
  | malloc (size : Nat) (file : String) (line : Int) (user_block : Ptr) (record_ok : Bool)
  | free (ptr : Ptr)
  | report
deriving DecidableEq

/-- Ledger after one call. -/
def step (T : Target) (s : Ledger) : Op → Ledger
  | Op.malloc size file line user_block record_ok =>
    (mt_malloc T s size file line user_block record_ok).2.1
  | Op.free ptr => (mt_free T s ptr).1
  | Op.report => s

/-- Ledger after a sequence of calls, executed left to right. -/
def run (T : Target) (s : Ledger) (ops : List Op) : Ledger :=
  ops.foldl (step T) s

/-- Sum of the `size` fields of a list of records (an exact natural number). -/
def total_size (l : List mt_record) : Nat := (l.map mt_record.size).sum

/-- The central invariant: both counters agree, in `size_t` arithmetic, with the
record list. -/
def Consistent (T : Target) (s : Ledger) : Prop :=
  s.g_live_blocks = s.g_head.length % T.size_mod ∧
  s.g_live_bytes = total_size s.g_head % T.size_mod

/-- A 64-bit target printing pointers in hexadecimal. -/
def demo_target : Target :=
  { size_bits := 64, fmt_ptr := fun p => "0x" ++ String.mk (Nat.toDigits 16 p) }

/-- Calls of the C library function `free`. -/
def Effect.is_free : Effect → Bool
  | Effect.free_user _ => true
  | Effect.free_record _ => true
  | _ => false

/-- The calls of `free` among a list of effects, in program order. -/
def real_frees (es : List Effect) : List Effect := es.filter Effect.is_free

/-- A ledger holding two records for the same address and one for another. -/
def demo_ledger : Ledger :=
  { g_head := [{ ptr := 7, size := 16, file := "a.c", line := 3 },
               { ptr := 9, size := 8, file := "b.c", line := 12 },
               { ptr := 7, size := 4, file := "a.c", line := 40 }]
    g_live_blocks := 3
    g_live_bytes := 28
    g_report_registered := 1 }

/-! ## Acquired and not yet released: the call sequence seen from outside -/

/-- The call is an `mt_malloc` that hands the non-null address `p` to its caller. -/
def Op.acquires (op : Op) (p : Ptr) : Bool :=
  match op with
  | Op.malloc _ _ _ user_block record_ok =>
    decide (user_block = p) && decide (p ≠ NULL) && record_ok
  | _ => false

/-- The call is `mt_free(p)`. -/
def Op.releases (op : Op) (p : Ptr) : Bool :=
  match op with
  | Op.free q => decide (q = p)
  | _ => false

/-- Follows the spec's words "acquired but not yet released": some call of the sequence
acquired `p` and no later call of the sequence released it. -/
def acquired_not_released : List Op → Ptr → Bool
  | [], _ => false
  | op :: later, p =>
    (op.acquires p && !later.any (fun o => o.releases p)) || acquired_not_released later p

/-- Follows the spec's words "no unmatched releases", with fresh addresses, for one call
made after the calls `earlier`: an `mt_free` is given an address acquired and not yet
released at that point, and an `mt_malloc` that succeeds returns an address that is not. -/
def call_matched (earlier : List Op) : Op → Bool
  | Op.free q => acquired_not_released earlier q
  | Op.malloc size file line user_block record_ok =>
    !(Op.malloc size file line user_block record_ok).acquires user_block
      || !acquired_not_released earlier user_block
  | Op.report => true

/-- Every call of `later`, made after the calls `earlier` and the calls of `later` before
it, is matched in the sense of `call_matched`. -/
def well_matched_from (earlier : List Op) : List Op → Bool
  | [] => true
  | op :: later => call_matched earlier op && well_matched_from (earlier ++ [op]) later

/-- Addresses of the records of a ledger, in list order. -/
def held (s : Ledger) : List Ptr := s.g_head.map mt_record.ptr

/-- Three acquisitions of four bytes, the first two released: the calls of
`tests/test_memtracker.c`, with addresses chosen for `malloc`. -/
def test_ops : List Op :=
  [Op.malloc 4 "tests/test_memtracker.c" 10 4096 true,
   Op.malloc 4 "tests/test_memtracker.c" 11 4128 true,
   Op.malloc 4 "tests/test_memtracker.c" 12 4160 true,
   Op.free 4096,
   Op.free 4128]

/-- The list of held addresses has no repetition and is the set of addresses acquired and
not yet released by the calls `earlier`. -/
def Tracks (s : Ledger) (earlier : List Op) : Prop :=
  (held s).Nodup ∧ ∀ p, p ∈ held s ↔ acquired_not_released earlier p = true

/-! ## The report text contract -/

/-- Follows the spec's report text contract: the rule of `=`, the title, the rule of `-`,
one `Leak #` line per record carrying the given number, the rule of `-`, the two summary
lines and the rule of `=`. -/
def report_text (T : Target) (numbers : List Nat) (records : List mt_record)
    (blocks bytes : Nat) : List Effect :=
  [Effect.fprintf_stderr "========================================\n",
   Effect.fprintf_stderr "[memtrack] MEMORY LEAK REPORT\n",
   Effect.fprintf_stderr "----------------------------------------\n"]
  ++ List.zipWith
      (fun n r => Effect.fprintf_stderr
        ("Leak #" ++ toString n ++ ": ptr=" ++ T.fmt_ptr r.ptr ++ " size=" ++ toString r.size
          ++ " allocated at " ++ r.file ++ ":" ++ toString r.line ++ "\n"))
      numbers records
  ++ [Effect.fprintf_stderr "----------------------------------------\n",
      Effect.fprintf_stderr ("Leaked blocks: " ++ toString blocks ++ "\n"),
      Effect.fprintf_stderr ("Leaked bytes : " ++ toString bytes ++ "\n"),
      Effect.fprintf_stderr "========================================\n"]

/-! ## End-to-end scenarios: acquire some blocks, release some of them, report -/

/-- The call `mt_malloc(r.size, r.file, r.line)` in which both allocations succeed and
`malloc` answers `r.ptr`. -/
def acquire_call (r : mt_record) : Op := Op.malloc r.size r.file r.line r.ptr true

/-- The calls of a scenario: one acquisition per element of `blocks`, in order, then
`mt_free` of each address of `released`, in order. -/
def scenario (blocks : List mt_record) (released : List Ptr) : List Op :=
  blocks.map acquire_call ++ released.map Op.free

/-- The blocks of a scenario whose address is not among the released ones, most recently
acquired first. -/
def unreleased (blocks : List mt_record) (released : List Ptr) : List mt_record :=
  (blocks.filter (fun r => decide (r.ptr ∉ released))).reverse

/-- The summary clause of the end-to-end claim, as worded: the report carries the two
summary lines, with the given number of blocks and of bytes. -/
def summary_reported (out : List Effect) (blocks bytes : Nat) : Prop :=
  Effect.fprintf_stderr ("Leaked blocks: " ++ toString blocks ++ "\n") ∈ out ∧
  Effect.fprintf_stderr ("Leaked bytes : " ++ toString bytes ++ "\n") ∈ out

/-- The three blocks of `tests/test_memtracker.c`, with addresses chosen for `malloc`. -/
def test_blocks : List mt_record :=
  [{ ptr := 4096, size := 4, file := "tests/test_memtracker.c", line := 10 },
   { ptr := 4128, size := 4, file := "tests/test_memtracker.c", line := 11 },
   { ptr := 4160, size := 4, file := "tests/test_memtracker.c", line := 12 }]

/-! ## Effects of call sequences -/

/-- Calls into the C library made by one call of the public interface. -/
def step_effects (T : Target) (s : Ledger) : Op → List Effect
  | Op.malloc size file line user_block record_ok =>
    (mt_malloc T s size file line user_block record_ok).2.2
  | Op.free ptr => (mt_free T s ptr).2
  | Op.report => mt_report T s

/-- Calls into the C library made by a sequence of calls, in program order. -/
def run_effects (T : Target) (s : Ledger) : List Op → List Effect
  | [] => []
  | op :: later => step_effects T s op ++ run_effects T (step T s op) later

/-- Calls of `fprintf(stderr, ...)`. -/
def Effect.is_print : Effect → Bool
  | Effect.fprintf_stderr _ => true
  | _ => false

/-- The addresses handed to `free` as user blocks, in program order. -/
def user_frees : List Effect → List Ptr
  | [] => []
  | Effect.free_user p :: rest => p :: user_frees rest
  | _ :: rest => user_frees rest

/-- A ledger whose counters are about to wrap around on a 64-bit target. -/
def full_ledger : Ledger :=
  { g_head := [{ ptr := 7, size := 18446744073709551615, file := "a.c", line := 3 }]
    g_live_blocks := 18446744073709551615
    g_live_bytes := 18446744073709551615
    g_report_registered := 1 }

/-- Calls of `atexit(mt_report)`. -/
def Effect.is_atexit : Effect → Bool
  | Effect.atexit_mt_report => true
  | _ => false

/-- Number of times the report was registered with `atexit`. -/
def registrations (es : List Effect) : Nat := es.countP Effect.is_atexit

/-- The call is an `mt_malloc`, whatever `malloc` answers. -/
def Op.is_malloc : Op → Bool
  | Op.malloc _ _ _ _ _ => true
  | _ => false

/-- The call is an `mt_malloc` that hands a non-null address to its caller. -/
def Op.succeeds : Op → Bool
  | Op.malloc _ _ _ user_block record_ok => decide (user_block ≠ NULL) && record_ok
  | _ => false

/-- The claim about a failing `mt_malloc`, as worded: the call leaves the whole ledger
unchanged, the report-registered flag included, and registers nothing. -/
def failed_malloc_is_silent (T : Target) (s : Ledger) (size : Nat) (file : String)
    (line : Int) : Prop :=
  (mt_malloc T s size file line NULL false).2.1 = s ∧
  registrations (mt_malloc T s size file line NULL false).2.2 = 0

/-- The record created by a call: an `mt_malloc` that succeeds creates the record it
inserts, any other call creates none. -/
def Op.record : Op → Option mt_record
  | Op.malloc size file line user_block record_ok =>
    if user_block ≠ NULL ∧ record_ok = true then
      some { ptr := user_block, size := size, file := file, line := line }
    else
      none
  | _ => none

/-- The records created by a sequence of calls, in order of acquisition (earliest first). -/
def acquired_records (ops : List Op) : List mt_record := ops.filterMap Op.record

/-- A target whose `size_t` has 16 bits, the least width the C standard allows. -/
def small_target : Target :=
  { size_bits := 16, fmt_ptr := fun p => "0x" ++ String.mk (Nat.toDigits 16 p) }

/-- The blocks of 65536 acquisitions of one byte each, at addresses 16 bytes apart. -/
def many_blocks : List mt_record :=
  (List.range 65536).map
    (fun i => { ptr := 4096 + 16 * i, size := 1, file := "loop.c", line := 7 })

/-- The claim about the no-leaks message, as worded: `mt_report` prints it exactly when
`g_live_blocks` is 0. -/
def no_leaks_iff_zero_blocks (T : Target) (s : Ledger) : Prop :=
  Effect.fprintf_stderr "[memtrack] No leaks detected.\n" ∈ mt_report T s
    ↔ s.g_live_blocks = 0

/-! ## Arithmetic of `size_t` -/

theorem size_mod_pos (T : Target) : 0 < T.size_mod := by
  unfold Target.size_mod
  positivity

theorem size_add_mod (T : Target) (a b : Nat) :
    size_add T (a % T.size_mod) b = (a + b) % T.size_mod := by
  unfold size_add
  exact Nat.mod_add_mod a T.size_mod b

theorem size_sub_mod (T : Target) (a b : Nat) :
    size_sub T ((a + b) % T.size_mod) b = a % T.size_mod := by
  unfold size_sub
  have h : (((((a + b) % T.size_mod : Nat) : Int) - (b : Int)) % (T.size_mod : Int))
      = ((a % T.size_mod : Nat) : Int) := by
    push_cast
    rw [Int.sub_emod, Int.emod_emod_of_dvd _ (dvd_refl _), ← Int.sub_emod]
    congr 1
    ring
  rw [h]
  exact Int.toNat_ofNat _

theorem size_sub_exact (T : Target) (a b : Nat) (hb : b ≤ a) (ha : a < T.size_mod) :
    size_sub T a b = a - b := by
  unfold size_sub
  have h : ((a : Int) - (b : Int)) = ((a - b : Nat) : Int) := by
    rw [Nat.cast_sub hb]
  rw [h, ← Int.natCast_mod, Int.toNat_ofNat]
  exact Nat.mod_eq_of_lt (by omega)

/-! ## The scan of `mt_free` -/

theorem mt_free_scan_none (p : Ptr) (l : List mt_record) :
    mt_free_scan p l = none ↔ ∀ r ∈ l, r.ptr ≠ p := by
  induction l with
  | nil => simp [mt_free_scan]
  | cons c t ih =>
    by_cases hc : c.ptr = p
    · simp [mt_free_scan, hc]
    · cases hs : mt_free_scan p t with
      | none => simpa [mt_free_scan, hc, hs] using ih.mp hs
      | some fr =>
        have hne : ¬ ∀ r ∈ t, r.ptr ≠ p := fun h => by
          rw [ih.mpr h] at hs
          cases hs
        simpa [mt_free_scan, hc, hs] using hne

theorem mt_free_scan_split (p : Ptr) (pre post : List mt_record) (r : mt_record)
    (hr : r.ptr = p) (hpre : ∀ x ∈ pre, x.ptr ≠ p) :
    mt_free_scan p (pre ++ r :: post) = some (r, pre ++ post) := by
  induction pre with
  | nil => simp [mt_free_scan, hr]
  | cons c t ih =>
    have hc : c.ptr ≠ p := hpre c (List.mem_cons_self c t)
    have ht : ∀ x ∈ t, x.ptr ≠ p := fun x hx => hpre x (List.mem_cons_of_mem c hx)
    simp [mt_free_scan, hc, ih ht]

theorem mt_free_scan_some (p : Ptr) (l : List mt_record) (r : mt_record)
    (l1 : List mt_record) (h : mt_free_scan p l = some (r, l1)) :
    ∃ pre post, l = pre ++ r :: post ∧ r.ptr = p ∧ (∀ x ∈ pre, x.ptr ≠ p) ∧
      l1 = pre ++ post := by
  induction l generalizing l1 with
  | nil => simp [mt_free_scan] at h
  | cons c t ih =>
    by_cases hc : c.ptr = p
    · simp [mt_free_scan, hc] at h
      obtain ⟨h1, h2⟩ := h
      subst h1 h2
      exact ⟨[], t, rfl, hc, by simp, rfl⟩
    · cases hs : mt_free_scan p t with
      | none => simp [mt_free_scan, hc, hs] at h
      | some fr =>
        obtain ⟨f, rest⟩ := fr
        simp [mt_free_scan, hc, hs] at h
        obtain ⟨h1, h2⟩ := h
        subst h1 h2
        obtain ⟨pre, post, e1, e2, e3, e4⟩ := ih rest hs
        refine ⟨c :: pre, post, by simp [e1], e2, ?_, by simp [e4]⟩
        intro x hx
        rcases List.mem_cons.mp hx with hx | hx
        · exact hx ▸ hc
        · exact e3 x hx

theorem total_size_append (a b : List mt_record) :
    total_size (a ++ b) = total_size a + total_size b := by
  simp [total_size]

theorem total_size_cons (r : mt_record) (l : List mt_record) :
    total_size (r :: l) = r.size + total_size l := by
  simp [total_size]

/-! ## The invariant -/

theorem consistent_initial (T : Target) : Consistent T Ledger.initial := by
  simp [Consistent, Ledger.initial, total_size, Nat.zero_mod]

theorem register_report_fields (s : Ledger) :
    (register_report s).1.g_head = s.g_head ∧
    (register_report s).1.g_live_blocks = s.g_live_blocks ∧
    (register_report s).1.g_live_bytes = s.g_live_bytes := by
  unfold register_report
  split <;> simp

theorem mt_malloc_user_fail (T : Target) (s : Ledger) (size : Nat) (file : String)
    (line : Int) (record_ok : Bool) :
    mt_malloc T s size file line NULL record_ok
      = (NULL, (register_report s).1,
          (register_report s).2 ++ [Effect.malloc_user size NULL]) := by
  simp [mt_malloc]

theorem mt_malloc_record_fail (T : Target) (s : Ledger) (size : Nat) (file : String)
    (line : Int) (p : Ptr) (hp : p ≠ NULL) :
    mt_malloc T s size file line p false
      = (NULL, (register_report s).1,
          (register_report s).2 ++ [Effect.malloc_user size p, Effect.malloc_record false,
            Effect.free_user p]) := by
  simp [mt_malloc, hp]

theorem mt_malloc_success (T : Target) (s : Ledger) (size : Nat) (file : String)
    (line : Int) (p : Ptr) (hp : p ≠ NULL) :
    mt_malloc T s size file line p true
      = (p,
         { g_head := { ptr := p, size := size, file := file, line := line }
             :: (register_report s).1.g_head
           g_live_blocks := size_add T (register_report s).1.g_live_blocks 1
           g_live_bytes := size_add T (register_report s).1.g_live_bytes size
           g_report_registered := (register_report s).1.g_report_registered },
         (register_report s).2 ++ [Effect.malloc_user size p, Effect.malloc_record true]) := by
  simp [mt_malloc, hp]

theorem consistent_mt_malloc (T : Target) (s : Ledger) (size : Nat) (file : String)
    (line : Int) (user_block : Ptr) (record_ok : Bool) (h : Consistent T s) :
    Consistent T (mt_malloc T s size file line user_block record_ok).2.1 := by
  obtain ⟨h1, h2, h3⟩ := register_report_fields s
  obtain ⟨hb, hy⟩ := h
  by_cases hp : user_block = NULL
  · subst hp
    rw [mt_malloc_user_fail]
    exact ⟨by rw [h1, h2, hb], by rw [h1, h3, hy]⟩
  · cases record_ok with
    | false =>
      rw [mt_malloc_record_fail T s size file line user_block hp]
      exact ⟨by rw [h1, h2, hb], by rw [h1, h3, hy]⟩
    | true =>
      rw [mt_malloc_success T s size file line user_block hp]
      refine ⟨?_, ?_⟩
      · show size_add T _ 1 = _
        rw [h2, hb, size_add_mod, h1]
        simp
      · show size_add T _ size = _
        rw [h3, hy, size_add_mod, h1]
        show _ = total_size (_ :: s.g_head) % _
        rw [total_size_cons, Nat.add_comm]

theorem consistent_mt_free (T : Target) (s : Ledger) (ptr : Ptr) (h : Consistent T s) :
    Consistent T (mt_free T s ptr).1 := by
  obtain ⟨hb, hy⟩ := h
  unfold mt_free
  by_cases hp : ptr = NULL
  · simp only [hp, if_true]
    exact ⟨hb, hy⟩
  · simp only [hp, if_false]
    cases hs : mt_free_scan ptr s.g_head with
    | none => exact ⟨hb, hy⟩
    | some fr =>
      obtain ⟨cur, rest⟩ := fr
      obtain ⟨pre, post, e1, _, _, e4⟩ := mt_free_scan_some ptr s.g_head cur rest hs
      refine ⟨?_, ?_⟩
      · show size_sub T s.g_live_blocks 1 = rest.length % T.size_mod
        have hl : s.g_head.length = rest.length + 1 := by
          rw [e1, e4]
          simp
          omega
        rw [hb, hl, size_sub_mod]
      · show size_sub T s.g_live_bytes cur.size = total_size rest % T.size_mod
        have hl : total_size s.g_head = total_size rest + cur.size := by
          rw [e1, e4, total_size_append, total_size_append, total_size_cons]
          omega
        rw [hy, hl, size_sub_mod]

theorem consistent_step (T : Target) (s : Ledger) (op : Op) (h : Consistent T s) :
    Consistent T (step T s op) := by
  cases op with
  | malloc size file line user_block record_ok =>
    exact consistent_mt_malloc T s size file line user_block record_ok h
  | free ptr => exact consistent_mt_free T s ptr h
  | report => exact h

theorem consistent_run (T : Target) (s : Ledger) (ops : List Op) (h : Consistent T s) :
    Consistent T (run T s ops) := by
  induction ops generalizing s with
  | nil => exact h
  | cons op rest ih => exact ih (step T s op) (consistent_step T s op h)

/-- C1. Central invariant: in every ledger state reached from the initial state by a
finite sequence of `mt_malloc` (whatever `malloc` answers), `mt_free` (any pointer) and
`mt_report` calls, `g_live_blocks` is the number of records in the list and
`g_live_bytes` is the sum of their `size` fields, both taken in `size_t` arithmetic
(modulo `2 ^ size_bits`). -/
theorem central_invariant (T : Target) (ops : List Op) :
    (run T Ledger.initial ops).g_live_blocks
      = (run T Ledger.initial ops).g_head.length % T.size_mod ∧
    (run T Ledger.initial ops).g_live_bytes
      = ((run T Ledger.initial ops).g_head.map mt_record.size).sum % T.size_mod :=
  consistent_run T Ledger.initial ops (consistent_initial T)

/-! ## mt_malloc -/

theorem real_frees_register_report (s : Ledger) : real_frees (register_report s).2 = [] := by
  unfold register_report
  split <;> simp [real_frees, Effect.is_free]

/-- C3. When `malloc(size)` answers a non-null `p` and the allocation of the record
succeeds, `mt_malloc(size, file, line)` returns `p`, the new list is the record
`{ptr = p, size, file, line}` followed by the old list, `g_live_blocks` is increased by
1 and `g_live_bytes` by `size` (in `size_t` arithmetic; the increase is exact whenever
the result fits in `size_t`). -/
theorem mt_malloc_inserts_front (T : Target) (s : Ledger) (size : Nat) (file : String)
    (line : Int) (p : Ptr) (hp : p ≠ NULL) :
    (mt_malloc T s size file line p true).1 = p ∧
    (mt_malloc T s size file line p true).2.1.g_head
      = { ptr := p, size := size, file := file, line := line } :: s.g_head ∧
    (mt_malloc T s size file line p true).2.1.g_live_blocks
      = (s.g_live_blocks + 1) % 2 ^ T.size_bits ∧
    (mt_malloc T s size file line p true).2.1.g_live_bytes
      = (s.g_live_bytes + size) % 2 ^ T.size_bits ∧
    (s.g_live_blocks + 1 < 2 ^ T.size_bits →
      (mt_malloc T s size file line p true).2.1.g_live_blocks = s.g_live_blocks + 1) ∧
    (s.g_live_bytes + size < 2 ^ T.size_bits →
      (mt_malloc T s size file line p true).2.1.g_live_bytes = s.g_live_bytes + size) := by
  obtain ⟨h1, h2, h3⟩ := register_report_fields s
  rw [mt_malloc_success T s size file line p hp]
  refine ⟨rfl, ?_, ?_, ?_, ?_, ?_⟩
  · show _ :: (register_report s).1.g_head = _
    rw [h1]
  · show size_add T (register_report s).1.g_live_blocks 1 = _
    rw [h2]
    rfl
  · show size_add T (register_report s).1.g_live_bytes size = _
    rw [h3]
    rfl
  · intro hlt
    show size_add T (register_report s).1.g_live_blocks 1 = _
    rw [h2]
    exact Nat.mod_eq_of_lt hlt
  · intro hlt
    show size_add T (register_report s).1.g_live_bytes size = _
    rw [h3]
    exact Nat.mod_eq_of_lt hlt

theorem mt_malloc_inserts_front_witness :
    (mt_malloc demo_target demo_ledger 0 "main.c" 21 5 true).1 = 5 ∧
    (mt_malloc demo_target demo_ledger 0 "main.c" 21 5 true).2.1.g_head
      = { ptr := 5, size := 0, file := "main.c", line := 21 } :: demo_ledger.g_head ∧
    (mt_malloc demo_target demo_ledger 0 "main.c" 21 5 true).2.1.g_live_blocks = 4 ∧
    (mt_malloc demo_target demo_ledger 0 "main.c" 21 5 true).2.1.g_live_bytes = 28 := by
  obtain ⟨h1, h2, _, _, h5, h6⟩ :=
    mt_malloc_inserts_front demo_target demo_ledger 0 "main.c" 21 5 (by decide)
  exact ⟨h1, h2, h5 (by decide), h6 (by decide)⟩

/-- C4. When `malloc(size)` answers `NULL`, or answers a block but the allocation of the
record fails, `mt_malloc` returns `NULL` and leaves the record list, `g_live_blocks` and
`g_live_bytes` as they were; the calls of `free` it makes are none in the first case and
exactly one, of the block just acquired, in the second. -/
theorem mt_malloc_failure (T : Target) (s : Ledger) (size : Nat) (file : String)
    (line : Int) (p : Ptr) (record_ok : Bool) (h : p = NULL ∨ record_ok = false) :
    (mt_malloc T s size file line p record_ok).1 = NULL ∧
    (mt_malloc T s size file line p record_ok).2.1.g_head = s.g_head ∧
    (mt_malloc T s size file line p record_ok).2.1.g_live_blocks = s.g_live_blocks ∧
    (mt_malloc T s size file line p record_ok).2.1.g_live_bytes = s.g_live_bytes ∧
    real_frees (mt_malloc T s size file line p record_ok).2.2
      = if p = NULL then [] else [Effect.free_user p] := by
  obtain ⟨h1, h2, h3⟩ := register_report_fields s
  by_cases hp : p = NULL
  · subst hp
    rw [mt_malloc_user_fail]
    refine ⟨rfl, h1, h2, h3, ?_⟩
    have := real_frees_register_report s
    simp only [real_frees] at this
    simp [real_frees, Effect.is_free, this]
  · have hr : record_ok = false := h.resolve_left hp
    subst hr
    rw [mt_malloc_record_fail T s size file line p hp]
    refine ⟨rfl, h1, h2, h3, ?_⟩
    have := real_frees_register_report s
    simp only [real_frees] at this
    simp [real_frees, Effect.is_free, this, hp]

theorem mt_malloc_failure_witness :
    (mt_malloc demo_target demo_ledger 32 "main.c" 21 5 false).1 = NULL ∧
    (mt_malloc demo_target demo_ledger 32 "main.c" 21 5 false).2.1.g_head
      = demo_ledger.g_head ∧
    real_frees (mt_malloc demo_target demo_ledger 32 "main.c" 21 5 false).2.2
      = [Effect.free_user 5] := by
  obtain ⟨h1, h2, _, _, h5⟩ :=
    mt_malloc_failure demo_target demo_ledger 32 "main.c" 21 5 false (Or.inr rfl)
  exact ⟨h1, h2, by simpa [NULL] using h5⟩

/-! ## mt_free -/

theorem mt_free_unlinks (T : Target) (s : Ledger) (p : Ptr) (hp : p ≠ NULL)
    (hheld : ∃ r ∈ s.g_head, r.ptr = p) :
    ∃ pre cur post,
      s.g_head = pre ++ cur :: post ∧ cur.ptr = p ∧ (∀ x ∈ pre, x.ptr ≠ p) ∧
      mt_free T s p
        = ({ s with
             g_head := pre ++ post
             g_live_blocks := size_sub T s.g_live_blocks 1
             g_live_bytes := size_sub T s.g_live_bytes cur.size },
           [Effect.free_record cur, Effect.free_user p]) := by
  cases hs : mt_free_scan p s.g_head with
  | none =>
    obtain ⟨r, hr, hrp⟩ := hheld
    exact absurd hrp ((mt_free_scan_none p s.g_head).mp hs r hr)
  | some fr =>
    obtain ⟨cur, rest⟩ := fr
    obtain ⟨pre, post, e1, e2, e3, e4⟩ := mt_free_scan_some p s.g_head cur rest hs
    refine ⟨pre, cur, post, e1, e2, e3, ?_⟩
    simp [mt_free, hp, hs, e4]

/-- C5. For a non-null `p` held by at least one record, `mt_free(p)` unlinks exactly the
first record in list order whose `ptr` is `p` and keeps every other record in place and
in order, decreases `g_live_blocks` by 1 and `g_live_bytes` by that record's `size` (in
`size_t` arithmetic; the decrease is exact whenever the counter is in range and at least
the amount subtracted), prints nothing, releases the record and calls `free(p)`. -/
theorem mt_free_held (T : Target) (s : Ledger) (p : Ptr) (hp : p ≠ NULL)
    (hheld : ∃ r ∈ s.g_head, r.ptr = p) :
    ∃ pre cur post,
      s.g_head = pre ++ cur :: post ∧ cur.ptr = p ∧ (∀ x ∈ pre, x.ptr ≠ p) ∧
      (mt_free T s p).1.g_head = pre ++ post ∧
      (mt_free T s p).1.g_live_blocks = size_sub T s.g_live_blocks 1 ∧
      (mt_free T s p).1.g_live_bytes = size_sub T s.g_live_bytes cur.size ∧
      (1 ≤ s.g_live_blocks → s.g_live_blocks < 2 ^ T.size_bits →
        (mt_free T s p).1.g_live_blocks = s.g_live_blocks - 1) ∧
      (cur.size ≤ s.g_live_bytes → s.g_live_bytes < 2 ^ T.size_bits →
        (mt_free T s p).1.g_live_bytes = s.g_live_bytes - cur.size) ∧
      (mt_free T s p).1.g_report_registered = s.g_report_registered ∧
      (mt_free T s p).2 = [Effect.free_record cur, Effect.free_user p] := by
  obtain ⟨pre, cur, post, e1, e2, e3, hf⟩ := mt_free_unlinks T s p hp hheld
  rw [hf]
  refine ⟨pre, cur, post, e1, e2, e3, rfl, rfl, rfl, ?_, ?_, rfl, rfl⟩
  · intro h1 h2
    exact size_sub_exact T _ _ h1 h2
  · intro h1 h2
    exact size_sub_exact T _ _ h1 h2

theorem mt_free_held_witness :
    ∃ pre cur post,
      demo_ledger.g_head = pre ++ cur :: post ∧ cur.ptr = 7 ∧ (∀ x ∈ pre, x.ptr ≠ 7) ∧
      (mt_free demo_target demo_ledger 7).1.g_head = pre ++ post ∧
      (mt_free demo_target demo_ledger 7).2 = [Effect.free_record cur, Effect.free_user 7] := by
  obtain ⟨pre, cur, post, h1, h2, h3, h4, _, _, _, _, _, h10⟩ :=
    mt_free_held demo_target demo_ledger 7 (by decide)
      ⟨{ ptr := 7, size := 16, file := "a.c", line := 3 }, by decide, rfl⟩
  exact ⟨pre, cur, post, h1, h2, h3, h4, h10⟩

/-- C6. For a non-null `p` that no record holds (in any ledger state, the initial one
included), `mt_free(p)` prints exactly one line, the warning
`[memtrack] Warning: free(<p>) not found in tracker records`, leaves the whole ledger
(record list, both counters and the report-registered flag) unchanged and still calls
`free(p)`. -/
theorem mt_free_unknown (T : Target) (s : Ledger) (p : Ptr) (hp : p ≠ NULL)
    (hun : ∀ r ∈ s.g_head, r.ptr ≠ p) :
    mt_free T s p
      = (s, [Effect.fprintf_stderr
              ("[memtrack] Warning: free(" ++ T.fmt_ptr p
                ++ ") not found in tracker records\n"),
             Effect.free_user p]) := by
  have hs : mt_free_scan p s.g_head = none := (mt_free_scan_none p s.g_head).mpr hun
  simp [mt_free, hp, hs, warning_text, String.append_assoc]

theorem mt_free_unknown_witness :
    mt_free demo_target Ledger.initial 5
      = (Ledger.initial,
         [Effect.fprintf_stderr "[memtrack] Warning: free(0x5) not found in tracker records\n",
          Effect.free_user 5]) :=
  mt_free_unknown demo_target Ledger.initial 5 (by decide) (by decide)

/-- C7. In every ledger state, also one where a record has a null `ptr`, `mt_free(NULL)`
leaves the whole ledger (record list, both counters and the report-registered flag)
unchanged, prints nothing, and its only call into the C library is `free(NULL)`. -/
theorem mt_free_null (T : Target) (s : Ledger) :
    mt_free T s NULL = (s, [Effect.free_user NULL]) := by
  simp [mt_free]

/-! ## The ledger holds the addresses acquired and not yet released -/

theorem run_append (T : Target) (s : Ledger) (a b : List Op) :
    run T s (a ++ b) = run T (run T s a) b := by
  simp [run, List.foldl_append]

/-- The sequence-level reading of "acquires" is the behaviour of the code: a call of
`mt_malloc` acquires `p` exactly when it returns `p` and `p` is not null. -/
theorem acquires_iff_returns (T : Target) (s : Ledger) (size : Nat) (file : String)
    (line : Int) (user_block : Ptr) (record_ok : Bool) (p : Ptr) :
    (Op.malloc size file line user_block record_ok).acquires p = true
      ↔ (mt_malloc T s size file line user_block record_ok).1 = p ∧ p ≠ NULL := by
  by_cases hp : user_block = NULL
  · subst hp
    rw [mt_malloc_user_fail]
    simp only [Op.acquires, Bool.and_eq_true, decide_eq_true_eq]
    constructor
    · rintro ⟨⟨h1, h2⟩, _⟩
      exact absurd h1.symm h2
    · rintro ⟨h1, h2⟩
      exact absurd h1.symm h2
  · cases record_ok with
    | false =>
      rw [mt_malloc_record_fail T s size file line user_block hp]
      simp only [Op.acquires, Bool.and_false, Bool.false_eq_true, false_iff, not_and, not_not]
      intro h
      exact h.symm
    | true =>
      rw [mt_malloc_success T s size file line user_block hp]
      simp only [Op.acquires, Bool.and_true, Bool.and_eq_true, decide_eq_true_eq]

theorem acquired_not_released_snoc (earlier : List Op) (op : Op) (p : Ptr) :
    acquired_not_released (earlier ++ [op]) p
      = ((acquired_not_released earlier p && !op.releases p) || op.acquires p) := by
  induction earlier with
  | nil => simp [acquired_not_released]
  | cons a t ih =>
    have e1 : acquired_not_released (a :: t ++ [op]) p
        = ((a.acquires p && !(t ++ [op]).any (fun o => o.releases p))
            || acquired_not_released (t ++ [op]) p) := rfl
    have e2 : acquired_not_released (a :: t) p
        = ((a.acquires p && !t.any (fun o => o.releases p))
            || acquired_not_released t p) := rfl
    rw [e1, e2, ih, List.any_append]
    simp only [List.any_cons, List.any_nil, Bool.or_false]
    generalize a.acquires p = b1
    generalize List.any t (fun o => o.releases p) = b2
    generalize acquired_not_released t p = b3
    generalize op.releases p = b4
    generalize op.acquires p = b5
    cases b1 <;> cases b2 <;> cases b3 <;> cases b4 <;> cases b5 <;> rfl

theorem acquires_null (op : Op) : op.acquires NULL = false := by
  cases op <;> simp [Op.acquires]

theorem acquired_not_released_null (ops : List Op) :
    acquired_not_released ops NULL = false := by
  induction ops with
  | nil => rfl
  | cons a t ih => simp [acquired_not_released, ih, acquires_null]

theorem held_register_report (s : Ledger) : held (register_report s).1 = held s := by
  simp [held, (register_report_fields s).1]

theorem tracks_malloc (T : Target) (s : Ledger) (earlier : List Op) (size : Nat)
    (file : String) (line : Int) (user_block : Ptr) (record_ok : Bool)
    (h : Tracks s earlier)
    (hfresh : (Op.malloc size file line user_block record_ok).acquires user_block = true →
      acquired_not_released earlier user_block = false) :
    Tracks (step T s (Op.malloc size file line user_block record_ok))
      (earlier ++ [Op.malloc size file line user_block record_ok]) := by
  obtain ⟨hnd, hmem⟩ := h
  have h1 := (register_report_fields s).1
  by_cases hp : user_block = NULL
  · subst hp
    have hh : held (step T s (Op.malloc size file line NULL record_ok)) = held s := by
      simp [step, mt_malloc_user_fail, held, h1]
    rw [Tracks, hh]
    refine ⟨hnd, fun p => ?_⟩
    rw [acquired_not_released_snoc, hmem p]
    simp [Op.acquires, Op.releases]
    intro h2 h3
    exact absurd h2.symm h3
  · cases record_ok with
    | false =>
      have hh : held (step T s (Op.malloc size file line user_block false)) = held s := by
        simp [step, mt_malloc_record_fail T s size file line user_block hp, held, h1]
      rw [Tracks, hh]
      refine ⟨hnd, fun p => ?_⟩
      rw [acquired_not_released_snoc, hmem p]
      simp [Op.acquires, Op.releases]
    | true =>
      have hh : held (step T s (Op.malloc size file line user_block true))
          = user_block :: held s := by
        simp [step, mt_malloc_success T s size file line user_block hp, held, h1]
      have hnew : acquired_not_released earlier user_block = false :=
        hfresh (by simp [Op.acquires, hp])
      have hnot : user_block ∉ held s := fun hin => by
        rw [(hmem user_block).mp hin] at hnew
        cases hnew
      rw [Tracks, hh]
      refine ⟨List.nodup_cons.mpr ⟨hnot, hnd⟩, fun p => ?_⟩
      rw [acquired_not_released_snoc, List.mem_cons, hmem p]
      by_cases hpu : user_block = p
      · subst hpu
        simp [Op.acquires, Op.releases, hp]
      · have hpu2 : ¬ p = user_block := fun e => hpu e.symm
        simp [Op.acquires, Op.releases, hpu, hpu2]

theorem tracks_free (T : Target) (s : Ledger) (earlier : List Op) (q : Ptr)
    (h : Tracks s earlier) (hq : acquired_not_released earlier q = true) :
    Tracks (step T s (Op.free q)) (earlier ++ [Op.free q]) := by
  obtain ⟨hnd, hmem⟩ := h
  have hqn : q ≠ NULL := fun e => by
    rw [e, acquired_not_released_null] at hq
    cases hq
  have hin : q ∈ held s := (hmem q).mpr hq
  obtain ⟨r, hr, hrq⟩ := List.mem_map.mp hin
  obtain ⟨pre, cur, post, e1, e2, _, e4⟩ := mt_free_unlinks T s q hqn ⟨r, hr, hrq⟩
  have hold : held s = pre.map mt_record.ptr ++ q :: post.map mt_record.ptr := by
    simp [held, e1, e2]
  have hnew : held (step T s (Op.free q)) = pre.map mt_record.ptr ++ post.map mt_record.ptr := by
    simp [held, step, e4]
  rw [hold] at hnd
  have hq1 : q ∉ pre.map mt_record.ptr ++ post.map mt_record.ptr :=
    (List.nodup_cons.mp (List.nodup_middle.mp hnd)).1
  have hnd2 : (pre.map mt_record.ptr ++ post.map mt_record.ptr).Nodup :=
    (List.nodup_cons.mp (List.nodup_middle.mp hnd)).2
  rw [Tracks, hnew]
  refine ⟨hnd2, fun p => ?_⟩
  rw [acquired_not_released_snoc]
  have hm := hmem p
  rw [hold] at hm
  by_cases hpq : q = p
  · subst hpq
    simp [Op.acquires, Op.releases, hq1]
  · have hpq2 : ¬ p = q := fun e => hpq e.symm
    simp only [Op.acquires, Op.releases, hpq, decide_False, Bool.not_false, Bool.and_true,
      Bool.or_false]
    rw [← hm]
    simp [hpq2]

theorem tracks_run (T : Target) (later earlier : List Op) (s : Ledger)
    (h : Tracks s earlier) (hw : well_matched_from earlier later = true) :
    Tracks (run T s later) (earlier ++ later) := by
  induction later generalizing earlier s with
  | nil => simpa [run] using h
  | cons op rest ih =>
    have hw2 : (call_matched earlier op && well_matched_from (earlier ++ [op]) rest)
        = true := hw
    rw [Bool.and_eq_true] at hw2
    obtain ⟨hop, hrest⟩ := hw2
    have hstep : Tracks (step T s op) (earlier ++ [op]) := by
      cases op with
      | malloc size file line user_block record_ok =>
        refine tracks_malloc T s earlier size file line user_block record_ok h ?_
        intro hacq
        simpa [call_matched, hacq] using hop
      | free q => exact tracks_free T s earlier q h (by simpa [call_matched] using hop)
      | report =>
        obtain ⟨hnd, hmem⟩ := h
        refine ⟨hnd, fun p => ?_⟩
        rw [acquired_not_released_snoc]
        simpa [Op.acquires, Op.releases, step] using hmem p
    have := ih (earlier ++ [op]) (step T s op) hstep hrest
    simpa [run] using this

/-- C2. For every sequence of `mt_malloc`/`mt_free` calls from the empty ledger in which
every `mt_free` is given an address held at that point and every `mt_malloc` that
succeeds returns an address not held at that point, the addresses of the records held
after the sequence are exactly the addresses acquired and not yet released (and each is
held by one record only). -/
theorem held_eq_acquired_not_released (T : Target) (ops : List Op)
    (hw : well_matched_from [] ops = true) :
    (∀ p, p ∈ (run T Ledger.initial ops).g_head.map mt_record.ptr
        ↔ acquired_not_released ops p = true) ∧
    ((run T Ledger.initial ops).g_head.map mt_record.ptr).Nodup := by
  have h0 : Tracks Ledger.initial [] := by
    simp [Tracks, held, Ledger.initial, acquired_not_released]
  have h := tracks_run T ops [] Ledger.initial h0 hw
  rw [List.nil_append] at h
  exact ⟨h.2, h.1⟩

theorem held_eq_acquired_not_released_witness :
    (run demo_target Ledger.initial test_ops).g_head.map mt_record.ptr = [4160] ∧
    (∀ p, p ∈ (run demo_target Ledger.initial test_ops).g_head.map mt_record.ptr
        ↔ acquired_not_released test_ops p = true) :=
  ⟨by decide, (held_eq_acquired_not_released demo_target test_ops (by decide)).1⟩

/-! ## mt_report -/

theorem leak_line_ne_no_leaks (T : Target) (i : Nat) (r : mt_record) :
    leak_line T i r ≠ no_leaks_text := by
  intro h
  have h2 := congrArg (fun s => s.data.head?) h
  simp [leak_line, no_leaks_text, String.data_append] at h2

theorem blocks_line_ne_no_leaks (n : Nat) : blocks_line n ≠ no_leaks_text := by
  intro h
  have h2 := congrArg (fun s => s.data.head?) h
  simp [blocks_line, no_leaks_text, String.data_append] at h2

theorem bytes_line_ne_no_leaks (n : Nat) : bytes_line n ≠ no_leaks_text := by
  intro h
  have h2 := congrArg (fun s => s.data.head?) h
  simp [bytes_line, no_leaks_text, String.data_append] at h2

theorem leak_line_eq (T : Target) (n : Nat) (r : mt_record) :
    leak_line T n r
      = "Leak #" ++ toString n ++ ": ptr=" ++ T.fmt_ptr r.ptr ++ " size=" ++ toString r.size
          ++ " allocated at " ++ r.file ++ ":" ++ toString r.line ++ "\n" := by
  simp [leak_line, String.append_assoc]

theorem mt_report_loop_eq (T : Target) (l : List mt_record) (a b : Nat) :
    mt_report_loop T l (a % T.size_mod) (b % T.size_mod)
      = ((a + l.length) % T.size_mod, (b + total_size l) % T.size_mod,
         List.zipWith (fun n r => Effect.fprintf_stderr (leak_line T n r))
           ((List.range' (a + 1) l.length).map (fun n => n % T.size_mod)) l) := by
  induction l generalizing a b with
  | nil => simp [mt_report_loop, total_size]
  | cons cur next ih =>
    have hstep : mt_report_loop T (cur :: next) (a % T.size_mod) (b % T.size_mod)
        = ((mt_report_loop T next (size_add T (a % T.size_mod) 1)
              (size_add T (b % T.size_mod) cur.size)).1,
           (mt_report_loop T next (size_add T (a % T.size_mod) 1)
              (size_add T (b % T.size_mod) cur.size)).2.1,
           Effect.fprintf_stderr (leak_line T (size_add T (a % T.size_mod) 1) cur)
             :: (mt_report_loop T next (size_add T (a % T.size_mod) 1)
              (size_add T (b % T.size_mod) cur.size)).2.2) := rfl
    rw [hstep, size_add_mod, size_add_mod, ih (a + 1) (b + cur.size)]
    have e1 : a + 1 + next.length = a + (cur :: next).length := by
      simp
      omega
    have e2 : b + cur.size + total_size next = b + total_size (cur :: next) := by
      rw [total_size_cons]
      omega
    rw [e1, e2]
    simp [List.range'_succ]

theorem mt_report_loop_no_leaks_text (T : Target) (l : List mt_record) (a b : Nat) :
    Effect.fprintf_stderr no_leaks_text ∉ (mt_report_loop T l a b).2.2 := by
  induction l generalizing a b with
  | nil => simp [mt_report_loop]
  | cons cur next ih =>
    intro hin
    have hin2 : Effect.fprintf_stderr no_leaks_text
        ∈ Effect.fprintf_stderr (leak_line T (size_add T a 1) cur)
          :: (mt_report_loop T next (size_add T a 1) (size_add T b cur.size)).2.2 := hin
    rcases List.mem_cons.mp hin2 with h | h
    · injection h with h1
      exact leak_line_ne_no_leaks T _ _ h1.symm
    · exact ih _ _ h

theorem mt_report_of_nonempty (T : Target) (s : Ledger) (h : s.g_head ≠ []) :
    mt_report T s
      = [Effect.fprintf_stderr rule_eq_text, Effect.fprintf_stderr title_text,
         Effect.fprintf_stderr rule_dash_text]
        ++ (mt_report_loop T s.g_head 0 0).2.2 ++
        [Effect.fprintf_stderr rule_dash_text,
         Effect.fprintf_stderr (blocks_line (mt_report_loop T s.g_head 0 0).1),
         Effect.fprintf_stderr (bytes_line (mt_report_loop T s.g_head 0 0).2.1),
         Effect.fprintf_stderr rule_eq_text] := by
  simp [mt_report, h]

theorem mt_report_text (T : Target) (s : Ledger) (h : s.g_head ≠ []) :
    mt_report T s
      = report_text T
          ((List.range' 1 s.g_head.length).map (fun n => n % T.size_mod))
          s.g_head (s.g_head.length % T.size_mod) (total_size s.g_head % T.size_mod) := by
  have hl := mt_report_loop_eq T s.g_head 0 0
  rw [Nat.zero_mod, Nat.zero_add, Nat.zero_add, Nat.zero_add] at hl
  rw [mt_report_of_nonempty T s h, hl]
  simp only [report_text, rule_eq_text, title_text, rule_dash_text, blocks_line, bytes_line,
    leak_line_eq, String.append_assoc]

theorem range_map_mod (m a n : Nat) (h : a + n ≤ m) :
    (List.range' a n).map (fun k => k % m) = List.range' a n := by
  induction n generalizing a with
  | zero => rfl
  | succ n ih =>
    rw [List.range'_succ, List.map_cons, ih (a + 1) (by omega), Nat.mod_eq_of_lt (by omega)]

theorem mt_report_text_exact (T : Target) (s : Ledger) (h : s.g_head ≠ [])
    (hn : s.g_head.length < T.size_mod) (hb : total_size s.g_head < T.size_mod) :
    mt_report T s
      = report_text T (List.range' 1 s.g_head.length) s.g_head s.g_head.length
          (total_size s.g_head) := by
  rw [mt_report_text T s h, range_map_mod T.size_mod 1 s.g_head.length (by omega),
    Nat.mod_eq_of_lt hn, Nat.mod_eq_of_lt hb]

theorem report_text_length (T : Target) (l : List mt_record) (numbers : List Nat)
    (blocks bytes : Nat) (h : numbers.length = l.length) :
    (report_text T numbers l blocks bytes).length = l.length + 7 := by
  simp [report_text, List.length_zipWith, h]

theorem mt_report_nonempty_no_leaks_text (T : Target) (s : Ledger) (h : s.g_head ≠ []) :
    Effect.fprintf_stderr no_leaks_text ∉ mt_report T s := by
  rw [mt_report_of_nonempty T s h]
  intro hin
  simp only [List.mem_append, List.mem_cons, List.mem_singleton, List.not_mem_nil,
    or_false] at hin
  rcases hin with (((h1 | h1 | h1) | h1) | h1 | h1 | h1 | h1)
  · exact absurd h1 (by decide)
  · exact absurd h1 (by decide)
  · exact absurd h1 (by decide)
  · exact mt_report_loop_no_leaks_text T _ _ _ h1
  · exact absurd h1 (by decide)
  · injection h1 with h2
    exact blocks_line_ne_no_leaks _ h2.symm
  · injection h1 with h2
    exact bytes_line_ne_no_leaks _ h2.symm
  · exact absurd h1 (by decide)

/-- C9. For a ledger whose list holds `n ≥ 1` records `r_1 .. r_n`, `mt_report` prints
exactly `n + 7` lines, in this order: the rule of `=`, the title, the rule of `-`, for
`i = 1 .. n` the line `Leak #i: ptr=<r_i.ptr> size=<r_i.size> allocated at
<r_i.file>:<r_i.line>`, the rule of `-`, `Leaked blocks: n`, `Leaked bytes : <sum of
sizes>` and the rule of `=`; it does not print the "No leaks detected" message. The
numbers are `size_t` values: they are printed modulo `2 ^ size_bits`, hence exactly as
written whenever `n` and the sum fit in `size_t`. -/
theorem mt_report_nonempty (T : Target) (s : Ledger) (h : s.g_head ≠ []) :
    mt_report T s
      = report_text T
          ((List.range' 1 s.g_head.length).map (fun i => i % 2 ^ T.size_bits))
          s.g_head (s.g_head.length % 2 ^ T.size_bits)
          ((s.g_head.map mt_record.size).sum % 2 ^ T.size_bits) ∧
    (s.g_head.length < 2 ^ T.size_bits → (s.g_head.map mt_record.size).sum < 2 ^ T.size_bits →
      mt_report T s
        = report_text T (List.range' 1 s.g_head.length) s.g_head s.g_head.length
            (s.g_head.map mt_record.size).sum) ∧
    (mt_report T s).length = s.g_head.length + 7 ∧
    Effect.fprintf_stderr "[memtrack] No leaks detected.\n" ∉ mt_report T s := by
  refine ⟨mt_report_text T s h, mt_report_text_exact T s h, ?_, ?_⟩
  · rw [mt_report_text T s h]
    exact report_text_length T _ _ _ _ (by simp)
  · exact mt_report_nonempty_no_leaks_text T s h

theorem mt_report_nonempty_witness :
    mt_report demo_target demo_ledger
      = [Effect.fprintf_stderr "========================================\n",
         Effect.fprintf_stderr "[memtrack] MEMORY LEAK REPORT\n",
         Effect.fprintf_stderr "----------------------------------------\n",
         Effect.fprintf_stderr "Leak #1: ptr=0x7 size=16 allocated at a.c:3\n",
         Effect.fprintf_stderr "Leak #2: ptr=0x9 size=8 allocated at b.c:12\n",
         Effect.fprintf_stderr "Leak #3: ptr=0x7 size=4 allocated at a.c:40\n",
         Effect.fprintf_stderr "----------------------------------------\n",
         Effect.fprintf_stderr "Leaked blocks: 3\n",
         Effect.fprintf_stderr "Leaked bytes : 28\n",
         Effect.fprintf_stderr "========================================\n"] :=
  ((mt_report_nonempty demo_target demo_ledger (by decide)).2.1 (by decide) (by decide)).trans
    (by decide)

/-- C10. On a ledger whose record list is empty `mt_report` prints exactly one line,
`[memtrack] No leaks detected.`, and nothing else; and it prints that line only when the
record list is empty. -/
theorem mt_report_empty (T : Target) (s : Ledger) :
    mt_report T { s with g_head := [] }
      = [Effect.fprintf_stderr "[memtrack] No leaks detected.\n"] ∧
    (Effect.fprintf_stderr "[memtrack] No leaks detected.\n" ∈ mt_report T s
      ↔ s.g_head = []) := by
  refine ⟨by simp [mt_report, no_leaks_text], ?_⟩
  constructor
  · intro hin
    by_contra hne
    exact mt_report_nonempty_no_leaks_text T s hne hin
  · intro he
    simp [mt_report, he, no_leaks_text]

/-! ## End-to-end scenarios -/

theorem run_acquire_calls (T : Target) (blocks : List mt_record) (s : Ledger)
    (hnn : ∀ r ∈ blocks, r.ptr ≠ NULL) :
    (run T s (blocks.map acquire_call)).g_head = blocks.reverse ++ s.g_head := by
  induction blocks generalizing s with
  | nil => simp [run]
  | cons r rest ih =>
    have hr : r.ptr ≠ NULL := hnn r (List.mem_cons_self r rest)
    have hrest : ∀ x ∈ rest, x.ptr ≠ NULL := fun x hx => hnn x (List.mem_cons_of_mem r hx)
    have h1 : run T s ((r :: rest).map acquire_call)
        = run T (step T s (acquire_call r)) (rest.map acquire_call) := rfl
    have h2 : (step T s (acquire_call r)).g_head = r :: s.g_head := by
      simp [step, acquire_call, mt_malloc_success T s r.size r.file r.line r.ptr hr,
        (register_report_fields s).1]
    rw [h1, ih _ hrest, h2]
    simp

theorem filter_ne_split (q : Ptr) (pre post : List mt_record) (cur : mt_record)
    (hc : cur.ptr = q)
    (hnd : ((pre ++ cur :: post).map mt_record.ptr).Nodup) :
    (pre ++ cur :: post).filter (fun r => decide (r.ptr ≠ q)) = pre ++ post := by
  have hnd2 : (q :: (pre.map mt_record.ptr ++ post.map mt_record.ptr)).Nodup := by
    have : (pre.map mt_record.ptr ++ q :: post.map mt_record.ptr).Nodup := by
      simpa [hc] using hnd
    exact List.nodup_middle.mp this
  have hq : q ∉ pre.map mt_record.ptr ++ post.map mt_record.ptr :=
    (List.nodup_cons.mp hnd2).1
  have hall : ∀ r ∈ pre ++ post, decide (r.ptr ≠ q) = true := by
    intro r hr
    have : r.ptr ≠ q := fun e => hq (by
      rw [← e, ← List.map_append]
      exact List.mem_map_of_mem _ hr)
    simpa using this
  have h1 : (pre ++ post).filter (fun r => decide (r.ptr ≠ q)) = pre ++ post :=
    List.filter_eq_self.mpr hall
  rw [List.filter_append, List.filter_cons_of_neg (by simp [hc]), ← List.filter_append, h1]

theorem step_free_filter (T : Target) (s : Ledger) (q : Ptr)
    (hnd : (held s).Nodup) (hnn : ∀ r ∈ s.g_head, r.ptr ≠ NULL) :
    (step T s (Op.free q)).g_head = s.g_head.filter (fun r => decide (r.ptr ≠ q)) := by
  by_cases hq : q = NULL
  · subst hq
    have h1 : (step T s (Op.free NULL)).g_head = s.g_head := by
      simp [step, mt_free]
    rw [h1]
    exact (List.filter_eq_self.mpr (fun r hr => by simpa using hnn r hr)).symm
  · by_cases hh : ∃ r ∈ s.g_head, r.ptr = q
    · obtain ⟨pre, cur, post, e1, e2, e3, e4⟩ := mt_free_unlinks T s q hq hh
      have h1 : (step T s (Op.free q)).g_head = pre ++ post := by
        simp [step, e4]
      rw [h1, e1]
      unfold held at hnd
      rw [e1] at hnd
      exact (filter_ne_split q pre post cur e2 hnd).symm
    · have hun : ∀ r ∈ s.g_head, r.ptr ≠ q := fun r hr e => hh ⟨r, hr, e⟩
      have hs : mt_free_scan q s.g_head = none := (mt_free_scan_none q s.g_head).mpr hun
      have h1 : (step T s (Op.free q)).g_head = s.g_head := by
        simp [step, mt_free, hq, hs]
      rw [h1]
      exact (List.filter_eq_self.mpr (fun r hr => by simpa using hun r hr)).symm

theorem run_free_calls (T : Target) (released : List Ptr) (s : Ledger)
    (hnd : (held s).Nodup) (hnn : ∀ r ∈ s.g_head, r.ptr ≠ NULL) :
    (run T s (released.map Op.free)).g_head
      = s.g_head.filter (fun r => decide (r.ptr ∉ released)) := by
  induction released generalizing s with
  | nil => simp [run]
  | cons q rest ih =>
    have h1 : run T s ((q :: rest).map Op.free)
        = run T (step T s (Op.free q)) (rest.map Op.free) := rfl
    have h2 := step_free_filter T s q hnd hnn
    have hnd2 : (held (step T s (Op.free q))).Nodup := by
      unfold held
      rw [h2]
      exact List.Nodup.sublist (List.Sublist.map _ (List.filter_sublist _)) hnd
    have hnn2 : ∀ r ∈ (step T s (Op.free q)).g_head, r.ptr ≠ NULL := by
      intro r hr
      rw [h2] at hr
      exact hnn r (List.mem_of_mem_filter hr)
    rw [h1, ih _ hnd2 hnn2, h2, List.filter_filter]
    congr 1
    funext r
    by_cases e : r.ptr = q <;> simp [e]

theorem scenario_g_head (T : Target) (blocks : List mt_record) (released : List Ptr)
    (hnd : (blocks.map mt_record.ptr).Nodup) (hnn : ∀ r ∈ blocks, r.ptr ≠ NULL) :
    (run T Ledger.initial (scenario blocks released)).g_head = unreleased blocks released := by
  have h1 := run_acquire_calls T blocks Ledger.initial hnn
  have h0 : Ledger.initial.g_head = [] := rfl
  rw [h0, List.append_nil] at h1
  unfold scenario unreleased
  rw [run_append, run_free_calls T released _ ?_ ?_, h1, List.filter_reverse]
  · unfold held
    rw [h1, List.map_reverse]
    exact List.nodup_reverse.mpr hnd
  · intro r hr
    rw [h1] at hr
    exact hnn r (List.mem_reverse.mp hr)

/-- C8, as amended. After successful `mt_malloc` calls returning pairwise distinct
non-null addresses, followed by `mt_free` of some of those addresses, the ledger holds
exactly the records of the unreleased blocks, most recently acquired first. If at least
one block is unreleased, `mt_report` prints one `Leak #` line for each unreleased block
and none for a released one, and its summary gives the number of unreleased blocks and the
sum of their sizes (as `size_t` values, hence exactly when they fit in `size_t`). If every
block was released, `mt_report` prints the single line `[memtrack] No leaks detected.`
and no summary. -/
theorem leak_report_end_to_end (T : Target) (blocks : List mt_record) (released : List Ptr)
    (hnd : (blocks.map mt_record.ptr).Nodup) (hnn : ∀ r ∈ blocks, r.ptr ≠ NULL) :
    (run T Ledger.initial (scenario blocks released)).g_head = unreleased blocks released ∧
    (unreleased blocks released ≠ [] →
      mt_report T (run T Ledger.initial (scenario blocks released))
        = report_text T
            ((List.range' 1 (unreleased blocks released).length).map
              (fun i => i % 2 ^ T.size_bits))
            (unreleased blocks released)
            ((unreleased blocks released).length % 2 ^ T.size_bits)
            (((unreleased blocks released).map mt_record.size).sum % 2 ^ T.size_bits)) ∧
    (unreleased blocks released ≠ [] →
      (unreleased blocks released).length < 2 ^ T.size_bits →
      ((unreleased blocks released).map mt_record.size).sum < 2 ^ T.size_bits →
      mt_report T (run T Ledger.initial (scenario blocks released))
        = report_text T (List.range' 1 (unreleased blocks released).length)
            (unreleased blocks released) (unreleased blocks released).length
            ((unreleased blocks released).map mt_record.size).sum) ∧
    (unreleased blocks released = [] →
      mt_report T (run T Ledger.initial (scenario blocks released))
        = [Effect.fprintf_stderr "[memtrack] No leaks detected.\n"]) := by
  have hg := scenario_g_head T blocks released hnd hnn
  refine ⟨hg, ?_, ?_, ?_⟩
  · intro hne
    have h := mt_report_text T (run T Ledger.initial (scenario blocks released))
      (by rw [hg]; exact hne)
    rw [hg] at h
    exact h
  · intro hne h1 h2
    have h := mt_report_text_exact T (run T Ledger.initial (scenario blocks released))
      (by rw [hg]; exact hne) (by rw [hg]; exact h1) (by rw [hg]; exact h2)
    rw [hg] at h
    exact h
  · intro he
    simp [mt_report, hg, he, no_leaks_text]

theorem leak_report_end_to_end_witness :
    mt_report demo_target (run demo_target Ledger.initial (scenario test_blocks [4096, 4128]))
      = [Effect.fprintf_stderr "========================================\n",
         Effect.fprintf_stderr "[memtrack] MEMORY LEAK REPORT\n",
         Effect.fprintf_stderr "----------------------------------------\n",
         Effect.fprintf_stderr
           "Leak #1: ptr=0x1040 size=4 allocated at tests/test_memtracker.c:12\n",
         Effect.fprintf_stderr "----------------------------------------\n",
         Effect.fprintf_stderr "Leaked blocks: 1\n",
         Effect.fprintf_stderr "Leaked bytes : 4\n",
         Effect.fprintf_stderr "========================================\n"] :=
  ((leak_report_end_to_end demo_target test_blocks [4096, 4128] (by decide)
      (by decide)).2.2.1 (by decide) (by decide) (by decide)).trans (by decide)

/-- C8, as worded, fails when every block is released: after one acquisition of four
bytes and the release of that block, `mt_report` prints only the "No leaks detected"
line, so there is no summary reporting `Leaked blocks: 0` and `Leaked bytes : 0`. -/
theorem summary_absent_when_all_released :
    mt_report demo_target
        (run demo_target Ledger.initial
          (scenario [{ ptr := 4096, size := 4, file := "tests/test_memtracker.c", line := 10 }]
            [4096]))
      = [Effect.fprintf_stderr "[memtrack] No leaks detected.\n"] ∧
    ¬ summary_reported
        (mt_report demo_target
          (run demo_target Ledger.initial
            (scenario [{ ptr := 4096, size := 4, file := "tests/test_memtracker.c", line := 10 }]
              [4096])))
        0 0 := by
  unfold summary_reported
  decide

/-! ## mt_report is an observer -/

theorem mt_report_loop_all_print (T : Target) (l : List mt_record) (a b : Nat) :
    ∀ e ∈ (mt_report_loop T l a b).2.2, e.is_print = true := by
  induction l generalizing a b with
  | nil => simp [mt_report_loop]
  | cons cur next ih =>
    intro e he
    have he2 : e ∈ Effect.fprintf_stderr (leak_line T (size_add T a 1) cur)
        :: (mt_report_loop T next (size_add T a 1) (size_add T b cur.size)).2.2 := he
    rcases List.mem_cons.mp he2 with h | h
    · rw [h]
      rfl
    · exact ih _ _ e h

theorem mt_report_all_print (T : Target) (s : Ledger) :
    ∀ e ∈ mt_report T s, e.is_print = true := by
  intro e he
  by_cases h : s.g_head = []
  · have hr : mt_report T s = [Effect.fprintf_stderr no_leaks_text] := by
      simp [mt_report, h]
    rw [hr] at he
    rw [List.mem_singleton.mp he]
    rfl
  · rw [mt_report_of_nonempty T s h] at he
    simp only [List.mem_append, List.mem_cons, List.mem_singleton, List.not_mem_nil,
      or_false] at he
    rcases he with (((h1 | h1 | h1) | h1) | h1 | h1 | h1 | h1)
    · rw [h1]; rfl
    · rw [h1]; rfl
    · rw [h1]; rfl
    · exact mt_report_loop_all_print T _ _ _ e h1
    · rw [h1]; rfl
    · rw [h1]; rfl
    · rw [h1]; rfl
    · rw [h1]; rfl

theorem is_free_of_is_print (e : Effect) (h : e.is_print = true) : e.is_free = false := by
  cases e <;> simp_all [Effect.is_print, Effect.is_free]

/-- C11. `mt_report` is purely observational and idempotent: in every ledger state it
leaves the record list, both counters and the report-registered flag unchanged, its only
calls into the C library are `fprintf(stderr, ...)` (so it calls `free` on nothing), and
two consecutive `mt_report` calls print the same text twice and leave the ledger as it
was. -/
theorem mt_report_observational (T : Target) (s : Ledger) :
    step T s Op.report = s ∧
    (∀ e ∈ mt_report T s, e.is_print = true) ∧
    real_frees (mt_report T s) = [] ∧
    run T s [Op.report, Op.report] = s ∧
    run_effects T s [Op.report, Op.report] = mt_report T s ++ mt_report T s := by
  refine ⟨rfl, mt_report_all_print T s, ?_, rfl, ?_⟩
  · unfold real_frees
    rw [List.filter_eq_nil_iff]
    intro e he
    rw [is_free_of_is_print e (mt_report_all_print T s e he)]
    simp
  · simp [run_effects, step_effects, step]

/-! ## Release of an unknown address, double release, round trip -/

theorem mt_free_absent (T : Target) (s : Ledger) (p : Ptr) (hp : p ≠ NULL)
    (hun : ∀ r ∈ s.g_head, r.ptr ≠ p) :
    mt_free T s p
      = (s, [Effect.fprintf_stderr (warning_text T p), Effect.free_user p]) := by
  have hs : mt_free_scan p s.g_head = none := (mt_free_scan_none p s.g_head).mpr hun
  simp [mt_free, hp, hs]

theorem warning_text_eq (T : Target) (p : Ptr) :
    warning_text T p
      = "[memtrack] Warning: free(" ++ T.fmt_ptr p ++ ") not found in tracker records\n" := by
  simp [warning_text, String.append_assoc]

theorem mt_free_after_mt_malloc (T : Target) (s : Ledger) (size : Nat) (file : String)
    (line : Int) (p : Ptr) (hp : p ≠ NULL) :
    mt_free T (mt_malloc T s size file line p true).2.1 p
      = ({ g_head := s.g_head
           g_live_blocks := size_sub T (size_add T s.g_live_blocks 1) 1
           g_live_bytes := size_sub T (size_add T s.g_live_bytes size) size
           g_report_registered := (register_report s).1.g_report_registered },
         [Effect.free_record { ptr := p, size := size, file := file, line := line },
          Effect.free_user p]) := by
  obtain ⟨h1, h2, h3⟩ := register_report_fields s
  rw [mt_malloc_success T s size file line p hp]
  simp [mt_free, hp, mt_free_scan, h1, h2, h3]

theorem size_sub_add_cancel (T : Target) (a b : Nat) (ha : a < T.size_mod) :
    size_sub T (size_add T a b) b = a := by
  unfold size_add
  rw [size_sub_mod, Nat.mod_eq_of_lt ha]

/-- C12. Double release: in a ledger that does not hold the non-null address `p`, after an
`mt_malloc` that succeeds and returns `p`, followed by `mt_free(p)` and a second
`mt_free(p)`, the second call is an unknown-address release: it prints the warning and
calls `free(p)`, and it leaves the ledger (record list, both counters, flag) exactly as
the first `mt_free(p)` left it; the first call had already removed the record. -/
theorem double_release (T : Target) (s : Ledger) (size : Nat) (file : String) (line : Int)
    (p : Ptr) (hp : p ≠ NULL) (hun : ∀ r ∈ s.g_head, r.ptr ≠ p) :
    (mt_free T (mt_malloc T s size file line p true).2.1 p).1.g_head = s.g_head ∧
    (mt_free T (mt_malloc T s size file line p true).2.1 p).2
      = [Effect.free_record { ptr := p, size := size, file := file, line := line },
         Effect.free_user p] ∧
    mt_free T (mt_free T (mt_malloc T s size file line p true).2.1 p).1 p
      = ((mt_free T (mt_malloc T s size file line p true).2.1 p).1,
         [Effect.fprintf_stderr
            ("[memtrack] Warning: free(" ++ T.fmt_ptr p
              ++ ") not found in tracker records\n"),
          Effect.free_user p]) := by
  have h1 := mt_free_after_mt_malloc T s size file line p hp
  refine ⟨by rw [h1], by rw [h1], ?_⟩
  rw [← warning_text_eq]
  exact mt_free_absent T _ p hp (by rw [h1]; exact hun)

theorem double_release_witness :
    mt_free demo_target
        (mt_free demo_target (mt_malloc demo_target Ledger.initial 4 "t.c" 9 4096 true).2.1
          4096).1 4096
      = ({ g_head := [], g_live_blocks := 0, g_live_bytes := 0, g_report_registered := 1 },
         [Effect.fprintf_stderr
            "[memtrack] Warning: free(0x1000) not found in tracker records\n",
          Effect.free_user 4096]) :=
  ((double_release demo_target Ledger.initial 4 "t.c" 9 4096 (by decide) (by decide)).2.2).trans
    (by decide)

/-- C15. `mt_free` never drops the caller's release intent: in every ledger state and for
every pointer `p` (null, held by a record, or unknown to the ledger), one call of
`mt_free(p)` hands exactly one user address to `free`, namely `p`; in particular it frees
`p` neither zero times nor twice and frees no other user address. -/
theorem mt_free_frees_once (T : Target) (s : Ledger) (p : Ptr) :
    user_frees (mt_free T s p).2 = [p] := by
  by_cases hp : p = NULL
  · subst hp
    simp [mt_free, user_frees]
  · cases hs : mt_free_scan p s.g_head with
    | none => simp [mt_free, hp, hs, user_frees]
    | some fr =>
      obtain ⟨cur, rest⟩ := fr
      simp [mt_free, hp, hs, user_frees]

/-- C17. Acquire/release round trip: in every ledger state whose counters are `size_t`
values, also one that already holds a record with the same address, and for every size,
an `mt_malloc` that succeeds and returns the non-null `p`, followed at once by
`mt_free(p)`, restores the record list (same records, same order), `g_live_blocks` and
`g_live_bytes` to their values before the `mt_malloc`, and prints no warning: the only
effects of the `mt_free` are the release of the record just created and `free(p)`. The
increments and decrements are those of `size_t`, wrap-around included. -/
theorem acquire_release_round_trip (T : Target) (s : Ledger) (size : Nat) (file : String)
    (line : Int) (p : Ptr) (hp : p ≠ NULL)
    (hblocks : s.g_live_blocks < 2 ^ T.size_bits) (hbytes : s.g_live_bytes < 2 ^ T.size_bits) :
    (mt_free T (mt_malloc T s size file line p true).2.1 p).1.g_head = s.g_head ∧
    (mt_free T (mt_malloc T s size file line p true).2.1 p).1.g_live_blocks
      = s.g_live_blocks ∧
    (mt_free T (mt_malloc T s size file line p true).2.1 p).1.g_live_bytes
      = s.g_live_bytes ∧
    (mt_free T (mt_malloc T s size file line p true).2.1 p).2
      = [Effect.free_record { ptr := p, size := size, file := file, line := line },
         Effect.free_user p] := by
  rw [mt_free_after_mt_malloc T s size file line p hp]
  exact ⟨rfl, size_sub_add_cancel T _ _ hblocks, size_sub_add_cancel T _ _ hbytes, rfl⟩

theorem acquire_release_round_trip_witness :
    (mt_malloc demo_target full_ledger 5 "a.c" 9 7 true).2.1.g_live_blocks = 0 ∧
    (mt_malloc demo_target full_ledger 5 "a.c" 9 7 true).2.1.g_live_bytes = 4 ∧
    (mt_free demo_target (mt_malloc demo_target full_ledger 5 "a.c" 9 7 true).2.1 7).1.g_head
      = full_ledger.g_head ∧
    (mt_free demo_target
        (mt_malloc demo_target full_ledger 5 "a.c" 9 7 true).2.1 7).1.g_live_blocks
      = 18446744073709551615 ∧
    (mt_free demo_target
        (mt_malloc demo_target full_ledger 5 "a.c" 9 7 true).2.1 7).1.g_live_bytes
      = 18446744073709551615 := by
  obtain ⟨h1, h2, h3, _⟩ :=
    acquire_release_round_trip demo_target full_ledger 5 "a.c" 9 7 (by decide) (by decide)
      (by decide)
  exact ⟨by decide, by decide, h1, h2, h3⟩

/-! ## Registration of the report -/

theorem register_report_of_zero (s : Ledger) (h : s.g_report_registered = 0) :
    register_report s = ({ s with g_report_registered := 1 }, [Effect.atexit_mt_report]) := by
  simp [register_report, h]

theorem register_report_of_ne_zero (s : Ledger) (h : s.g_report_registered ≠ 0) :
    register_report s = (s, []) := by
  simp [register_report, h]

theorem mt_malloc_flag (T : Target) (s : Ledger) (size : Nat) (file : String) (line : Int)
    (user_block : Ptr) (record_ok : Bool) :
    (mt_malloc T s size file line user_block record_ok).2.1.g_report_registered
      = (register_report s).1.g_report_registered := by
  by_cases hp : user_block = NULL
  · subst hp
    rw [mt_malloc_user_fail]
  · cases record_ok with
    | false => rw [mt_malloc_record_fail T s size file line user_block hp]
    | true => rw [mt_malloc_success T s size file line user_block hp]

theorem mt_malloc_registrations (T : Target) (s : Ledger) (size : Nat) (file : String)
    (line : Int) (user_block : Ptr) (record_ok : Bool) :
    registrations (mt_malloc T s size file line user_block record_ok).2.2
      = registrations (register_report s).2 := by
  by_cases hp : user_block = NULL
  · subst hp
    rw [mt_malloc_user_fail]
    simp [registrations, Effect.is_atexit]
  · cases record_ok with
    | false =>
      rw [mt_malloc_record_fail T s size file line user_block hp]
      simp [registrations, Effect.is_atexit]
    | true =>
      rw [mt_malloc_success T s size file line user_block hp]
      simp [registrations, Effect.is_atexit]

theorem mt_free_flag (T : Target) (s : Ledger) (p : Ptr) :
    (mt_free T s p).1.g_report_registered = s.g_report_registered := by
  by_cases hp : p = NULL
  · subst hp
    simp [mt_free]
  · cases hs : mt_free_scan p s.g_head with
    | none => simp [mt_free, hp, hs]
    | some fr =>
      obtain ⟨cur, rest⟩ := fr
      simp [mt_free, hp, hs]

theorem mt_free_registrations (T : Target) (s : Ledger) (p : Ptr) :
    registrations (mt_free T s p).2 = 0 := by
  by_cases hp : p = NULL
  · subst hp
    simp [mt_free, registrations, Effect.is_atexit]
  · cases hs : mt_free_scan p s.g_head with
    | none => simp [mt_free, hp, hs, registrations, Effect.is_atexit]
    | some fr =>
      obtain ⟨cur, rest⟩ := fr
      simp [mt_free, hp, hs, registrations, Effect.is_atexit]

theorem mt_report_registrations (T : Target) (s : Ledger) :
    registrations (mt_report T s) = 0 := by
  unfold registrations
  rw [List.countP_eq_zero]
  intro e he
  have := mt_report_all_print T s e he
  cases e <;> simp_all [Effect.is_print, Effect.is_atexit]

theorem step_flag_of_ne_zero (T : Target) (s : Ledger) (op : Op)
    (h : s.g_report_registered ≠ 0) :
    (step T s op).g_report_registered = s.g_report_registered := by
  cases op with
  | malloc size file line user_block record_ok =>
    show (mt_malloc T s size file line user_block record_ok).2.1.g_report_registered = _
    rw [mt_malloc_flag, register_report_of_ne_zero s h]
  | free p => exact mt_free_flag T s p
  | report => rfl

theorem step_registrations_of_ne_zero (T : Target) (s : Ledger) (op : Op)
    (h : s.g_report_registered ≠ 0) :
    registrations (step_effects T s op) = 0 := by
  cases op with
  | malloc size file line user_block record_ok =>
    show registrations (mt_malloc T s size file line user_block record_ok).2.2 = 0
    rw [mt_malloc_registrations, register_report_of_ne_zero s h]
    rfl
  | free p => exact mt_free_registrations T s p
  | report => exact mt_report_registrations T s

theorem registrations_append (a b : List Effect) :
    registrations (a ++ b) = registrations a + registrations b := by
  simp [registrations, List.countP_append]

theorem run_registrations_of_ne_zero (T : Target) (ops : List Op) (s : Ledger)
    (h : s.g_report_registered ≠ 0) :
    registrations (run_effects T s ops) = 0 := by
  induction ops generalizing s with
  | nil => rfl
  | cons op rest ih =>
    have hs : (step T s op).g_report_registered ≠ 0 := by
      rw [step_flag_of_ne_zero T s op h]
      exact h
    show registrations (step_effects T s op ++ run_effects T (step T s op) rest) = 0
    rw [registrations_append, step_registrations_of_ne_zero T s op h, ih _ hs]

theorem run_registrations_of_zero (T : Target) (ops : List Op) (s : Ledger)
    (h : s.g_report_registered = 0) :
    registrations (run_effects T s ops) = if ops.any Op.is_malloc then 1 else 0 := by
  induction ops generalizing s with
  | nil => rfl
  | cons op rest ih =>
    show registrations (step_effects T s op ++ run_effects T (step T s op) rest) = _
    rw [registrations_append]
    cases op with
    | malloc size file line user_block record_ok =>
      have h1 : registrations
          (step_effects T s (Op.malloc size file line user_block record_ok)) = 1 := by
        show registrations (mt_malloc T s size file line user_block record_ok).2.2 = 1
        rw [mt_malloc_registrations, register_report_of_zero s h]
        rfl
      have h2 : (step T s (Op.malloc size file line user_block record_ok)).g_report_registered
          ≠ 0 := by
        show (mt_malloc T s size file line user_block record_ok).2.1.g_report_registered ≠ 0
        rw [mt_malloc_flag, register_report_of_zero s h]
        exact one_ne_zero
      rw [h1, run_registrations_of_ne_zero T rest _ h2]
      simp [Op.is_malloc]
    | free p =>
      have h2 : (step T s (Op.free p)).g_report_registered = 0 := by
        show (mt_free T s p).1.g_report_registered = 0
        rw [mt_free_flag, h]
      have h1 : registrations (step_effects T s (Op.free p)) = 0 :=
        mt_free_registrations T s p
      rw [h1, ih _ h2]
      simp [Op.is_malloc]
    | report =>
      have h1 : registrations (step_effects T s Op.report) = 0 :=
        mt_report_registrations T s
      have h2 : (step T s Op.report).g_report_registered = 0 := h
      rw [h1, ih _ h2]
      simp [Op.is_malloc]

theorem is_malloc_of_succeeds (op : Op) (h : op.succeeds = true) : op.is_malloc = true := by
  cases op <;> simp_all [Op.succeeds, Op.is_malloc]

/-- C13. One-shot registration of the report: over every finite sequence of
`mt_malloc`/`mt_free`/`mt_report` calls from the initial state, `atexit(mt_report)` is
called at most once in total, and exactly once if the sequence contains an `mt_malloc`
that succeeds, however many acquisitions there are (the exact count is 1 when the
sequence contains an `mt_malloc` call and 0 otherwise); and once the report-registered
flag is set no call changes it. -/
theorem report_registered_once (T : Target) (ops : List Op) :
    registrations (run_effects T Ledger.initial ops) ≤ 1 ∧
    (ops.any Op.succeeds = true → registrations (run_effects T Ledger.initial ops) = 1) ∧
    registrations (run_effects T Ledger.initial ops)
      = (if ops.any Op.is_malloc then 1 else 0) ∧
    (∀ (s : Ledger) (op : Op), s.g_report_registered ≠ 0 →
      (step T s op).g_report_registered = s.g_report_registered) := by
  have h := run_registrations_of_zero T ops Ledger.initial rfl
  refine ⟨?_, ?_, h, fun s op hs => step_flag_of_ne_zero T s op hs⟩
  · rw [h]
    split <;> omega
  · intro hs
    rw [h]
    have hm : ops.any Op.is_malloc = true := by
      rw [List.any_eq_true] at hs ⊢
      obtain ⟨op, hop, hsucc⟩ := hs
      exact ⟨op, hop, is_malloc_of_succeeds op hsucc⟩
    simp [hm]

theorem report_registered_once_witness :
    registrations (run_effects demo_target Ledger.initial test_ops) = 1 :=
  (report_registered_once demo_target test_ops).2.1 (by decide)

/-- C14, as amended. The report is registered by the very first `mt_malloc` call, whether
or not it succeeds: an `mt_malloc` whose real allocation fails returns `NULL`, leaves the
record list and both counters unchanged and calls `free` on nothing; when the
report-registered flag is already set it leaves the whole ledger unchanged, and when the
flag is not yet set it sets the flag and calls `atexit(mt_report)`. So from the initial
state a failing `mt_malloc` does perform the registration. -/
theorem failed_malloc_registers (T : Target) (s : Ledger) (size : Nat) (file : String)
    (line : Int) (record_ok : Bool) :
    mt_malloc T s size file line NULL record_ok
      = (NULL,
         if s.g_report_registered = 0 then { s with g_report_registered := 1 } else s,
         (if s.g_report_registered = 0 then [Effect.atexit_mt_report] else [])
           ++ [Effect.malloc_user size NULL]) ∧
    mt_malloc T Ledger.initial size file line NULL record_ok
      = (NULL,
         { g_head := [], g_live_blocks := 0, g_live_bytes := 0, g_report_registered := 1 },
         [Effect.atexit_mt_report, Effect.malloc_user size NULL]) := by
  refine ⟨?_, ?_⟩
  · rw [mt_malloc_user_fail]
    by_cases h : s.g_report_registered = 0
    · rw [register_report_of_zero s h]
      simp [h]
    · rw [register_report_of_ne_zero s h]
      simp [h]
  · rw [mt_malloc_user_fail]
    rfl

/-- C14, as worded, fails in the initial state: an `mt_malloc` whose real allocation fails
sets the report-registered flag and calls `atexit(mt_report)`, so the ledger is not left
unchanged and a registration is performed. -/
theorem failed_malloc_not_silent :
    (mt_malloc demo_target Ledger.initial 4 "main.c" 10 NULL false).2.1.g_report_registered
      = 1 ∧
    (mt_malloc demo_target Ledger.initial 4 "main.c" 10 NULL false).2.2
      = [Effect.atexit_mt_report, Effect.malloc_user 4 NULL] ∧
    ¬ failed_malloc_is_silent demo_target Ledger.initial 4 "main.c" 10 := by
  unfold failed_malloc_is_silent
  decide

/-! ## Order of the records -/

theorem step_g_head_sublist (T : Target) (s : Ledger) (op : Op) :
    List.Sublist (step T s op).g_head (op.record.toList ++ s.g_head) := by
  have h1 := (register_report_fields s).1
  cases op with
  | malloc size file line user_block record_ok =>
    by_cases hp : user_block = NULL
    · subst hp
      simp [step, mt_malloc_user_fail, Op.record, h1]
    · cases record_ok with
      | false =>
        simp [step, mt_malloc_record_fail T s size file line user_block hp, Op.record, h1]
      | true =>
        simp [step, mt_malloc_success T s size file line user_block hp, Op.record, h1, hp]
  | free p =>
    show List.Sublist (mt_free T s p).1.g_head ([] ++ s.g_head)
    rw [List.nil_append]
    by_cases hp : p = NULL
    · subst hp
      simp [mt_free]
    · cases hs : mt_free_scan p s.g_head with
      | none => simp [mt_free, hp, hs]
      | some fr =>
        obtain ⟨cur, rest⟩ := fr
        obtain ⟨pre, post, e1, _, _, e4⟩ := mt_free_scan_some p s.g_head cur rest hs
        have : (mt_free T s p).1.g_head = pre ++ post := by
          simp [mt_free, hp, hs, e4]
        rw [this, e1]
        exact List.Sublist.append_left (List.sublist_cons_self cur post) pre
  | report => simp [step, Op.record]

theorem run_g_head_sublist (T : Target) (ops : List Op) (s : Ledger) :
    List.Sublist (run T s ops).g_head ((acquired_records ops).reverse ++ s.g_head) := by
  induction ops generalizing s with
  | nil => simp [run, acquired_records]
  | cons op rest ih =>
    have h1 : run T s (op :: rest) = run T (step T s op) rest := rfl
    have h2 : (acquired_records (op :: rest)).reverse
        = (acquired_records rest).reverse ++ op.record.toList := by
      unfold acquired_records
      cases hr : op.record with
      | none => simp [List.filterMap_cons, hr]
      | some r => simp [List.filterMap_cons, hr]
    rw [h1, h2, List.append_assoc]
    exact (ih (step T s op)).trans
      (List.Sublist.append_left (step_g_head_sublist T s op) _)

/-- C16. Most-recent-first order: in every ledger state reached from the empty ledger by
`mt_malloc`/`mt_free` (and `mt_report`) calls, the record list is what remains of the list
of all records ever created, read from the latest acquisition to the earliest, after
deleting some of its entries: a record acquired later precedes every surviving record
acquired earlier. `mt_report` walks the list from the head, so its `Leak #` lines list the
surviving records in that order, the most recently acquired first. -/
theorem records_most_recent_first (T : Target) (ops : List Op) :
    List.Sublist (run T Ledger.initial ops).g_head (acquired_records ops).reverse ∧
    ((run T Ledger.initial ops).g_head ≠ [] →
      mt_report T (run T Ledger.initial ops)
        = report_text T
            ((List.range' 1 (run T Ledger.initial ops).g_head.length).map
              (fun i => i % 2 ^ T.size_bits))
            (run T Ledger.initial ops).g_head
            ((run T Ledger.initial ops).g_head.length % 2 ^ T.size_bits)
            (((run T Ledger.initial ops).g_head.map mt_record.size).sum
              % 2 ^ T.size_bits)) := by
  refine ⟨?_, fun h => mt_report_text T _ h⟩
  have h := run_g_head_sublist T ops Ledger.initial
  have h0 : Ledger.initial.g_head = [] := rfl
  rw [h0, List.append_nil] at h
  exact h

theorem records_most_recent_first_witness :
    (acquired_records
        [Op.malloc 4 "t.c" 10 4096 true, Op.malloc 8 "t.c" 11 4128 true,
         Op.malloc 2 "t.c" 12 4160 true, Op.free 4128]).reverse
      = [{ ptr := 4160, size := 2, file := "t.c", line := 12 },
         { ptr := 4128, size := 8, file := "t.c", line := 11 },
         { ptr := 4096, size := 4, file := "t.c", line := 10 }] ∧
    mt_report demo_target
        (run demo_target Ledger.initial
          [Op.malloc 4 "t.c" 10 4096 true, Op.malloc 8 "t.c" 11 4128 true,
           Op.malloc 2 "t.c" 12 4160 true, Op.free 4128])
      = [Effect.fprintf_stderr "========================================\n",
         Effect.fprintf_stderr "[memtrack] MEMORY LEAK REPORT\n",
         Effect.fprintf_stderr "----------------------------------------\n",
         Effect.fprintf_stderr "Leak #1: ptr=0x1040 size=2 allocated at t.c:12\n",
         Effect.fprintf_stderr "Leak #2: ptr=0x1000 size=4 allocated at t.c:10\n",
         Effect.fprintf_stderr "----------------------------------------\n",
         Effect.fprintf_stderr "Leaked blocks: 2\n",
         Effect.fprintf_stderr "Leaked bytes : 6\n",
         Effect.fprintf_stderr "========================================\n"] :=
  ⟨by decide,
   ((records_most_recent_first demo_target
      [Op.malloc 4 "t.c" 10 4096 true, Op.malloc 8 "t.c" 11 4128 true,
       Op.malloc 2 "t.c" 12 4160 true, Op.free 4128]).2 (by decide)).trans (by decide)⟩

/-! ## The report and the counters -/

theorem no_leaks_text_mem_iff (T : Target) (s : Ledger) :
    Effect.fprintf_stderr no_leaks_text ∈ mt_report T s ↔ s.g_head = [] := by
  constructor
  · intro hin
    by_contra hne
    exact mt_report_nonempty_no_leaks_text T s hne hin
  · intro he
    simp [mt_report, he]

/-- C18, as amended. `mt_report` recomputes its totals by walking the list; in every
ledger state reached from the initial state by `mt_malloc`/`mt_free`/`mt_report` calls
with a non-empty record list, the values it prints as `Leaked blocks` and `Leaked bytes`
are the current `g_live_blocks` and `g_live_bytes`. It prints "No leaks detected" exactly
when the record list is empty; that is the same as `g_live_blocks` being 0 whenever the
number of records is less than `2 ^ size_bits`. -/
theorem report_agrees_with_counters (T : Target) (ops : List Op) :
    ((run T Ledger.initial ops).g_head ≠ [] →
      mt_report T (run T Ledger.initial ops)
        = report_text T
            ((List.range' 1 (run T Ledger.initial ops).g_head.length).map
              (fun i => i % 2 ^ T.size_bits))
            (run T Ledger.initial ops).g_head
            (run T Ledger.initial ops).g_live_blocks
            (run T Ledger.initial ops).g_live_bytes) ∧
    (Effect.fprintf_stderr "[memtrack] No leaks detected.\n"
        ∈ mt_report T (run T Ledger.initial ops)
      ↔ (run T Ledger.initial ops).g_head = []) ∧
    ((run T Ledger.initial ops).g_head.length < 2 ^ T.size_bits →
      (Effect.fprintf_stderr "[memtrack] No leaks detected.\n"
          ∈ mt_report T (run T Ledger.initial ops)
        ↔ (run T Ledger.initial ops).g_live_blocks = 0)) := by
  obtain ⟨hb, hy⟩ := consistent_run T Ledger.initial ops (consistent_initial T)
  refine ⟨?_, no_leaks_text_mem_iff T _, ?_⟩
  · intro hne
    rw [mt_report_text T _ hne, ← hb, ← hy]
    rfl
  · intro hlt
    have h := no_leaks_text_mem_iff T (run T Ledger.initial ops)
    rw [show no_leaks_text = "[memtrack] No leaks detected.\n" from rfl] at h
    rw [h, hb, Target.size_mod, Nat.mod_eq_of_lt hlt]
    exact List.length_eq_zero.symm

theorem report_agrees_with_counters_witness :
    mt_report demo_target (run demo_target Ledger.initial test_ops)
      = report_text demo_target [1]
          [{ ptr := 4160, size := 4, file := "tests/test_memtracker.c", line := 12 }] 1 4 ∧
    (run demo_target Ledger.initial test_ops).g_live_blocks = 1 ∧
    (run demo_target Ledger.initial test_ops).g_live_bytes = 4 :=
  ⟨((report_agrees_with_counters demo_target test_ops).1 (by decide)).trans (by decide),
   by decide, by decide⟩

theorem many_blocks_ne_null : ∀ r ∈ many_blocks, r.ptr ≠ NULL := by
  intro r hr
  unfold many_blocks at hr
  obtain ⟨i, _, hi⟩ := List.mem_map.mp hr
  rw [← hi]
  intro h
  have h2 : (4096 + 16 * i : Nat) = 0 := h
  omega

theorem many_blocks_g_head (T : Target) :
    (run T Ledger.initial (scenario many_blocks [])).g_head = many_blocks.reverse := by
  have h := run_acquire_calls T many_blocks Ledger.initial many_blocks_ne_null
  have h0 : Ledger.initial.g_head = [] := rfl
  rw [h0, List.append_nil] at h
  have hs : scenario many_blocks [] = many_blocks.map acquire_call := by
    simp [scenario]
  rw [hs, h]

theorem many_blocks_length : many_blocks.length = 65536 := by
  simp [many_blocks]

/-- C18, as worded, fails once the number of records reaches `2 ^ size_bits`: on a target
with a 16-bit `size_t`, after 65536 successful acquisitions `g_live_blocks` has wrapped
around to 0 while the list holds 65536 records, so `mt_report` prints the full report and
not the "No leaks detected" line. -/
theorem no_leaks_iff_zero_blocks_fails :
    (run small_target Ledger.initial (scenario many_blocks [])).g_live_blocks = 0 ∧
    (run small_target Ledger.initial (scenario many_blocks [])).g_head.length = 65536 ∧
    Effect.fprintf_stderr "[memtrack] No leaks detected.\n"
      ∉ mt_report small_target (run small_target Ledger.initial (scenario many_blocks [])) ∧
    ¬ no_leaks_iff_zero_blocks small_target
        (run small_target Ledger.initial (scenario many_blocks [])) := by
  have hg := many_blocks_g_head small_target
  have hl : (run small_target Ledger.initial (scenario many_blocks [])).g_head.length
      = 65536 := by
    rw [hg, List.length_reverse, many_blocks_length]
  have hb : (run small_target Ledger.initial (scenario many_blocks [])).g_live_blocks = 0 := by
    have h := (consistent_run small_target Ledger.initial (scenario many_blocks [])
      (consistent_initial small_target)).1
    rw [h, hl]
    rfl
  have hne : (run small_target Ledger.initial (scenario many_blocks [])).g_head ≠ [] := by
    intro he
    rw [he] at hl
    simp at hl
  have hnot := mt_report_nonempty_no_leaks_text small_target _ hne
  refine ⟨hb, hl, hnot, ?_⟩
  intro hiff
  exact hnot (hiff.mpr hb)

/-! ## No underflow of the counters -/

theorem mt_free_found (T : Target) (s : Ledger) (p : Ptr) (cur : mt_record)
    (rest : List mt_record) (hp : p ≠ NULL) (hs : mt_free_scan p s.g_head = some (cur, rest)) :
    mt_free T s p
      = ({ s with
           g_head := rest
           g_live_blocks := size_sub T s.g_live_blocks 1
           g_live_bytes := size_sub T s.g_live_bytes cur.size },
         [Effect.free_record cur, Effect.free_user p]) := by
  simp [mt_free, hp, hs]

theorem total_size_ge_of_scan (p : Ptr) (l : List mt_record) (cur : mt_record)
    (rest : List mt_record) (hs : mt_free_scan p l = some (cur, rest)) :
    1 ≤ l.length ∧ cur.size ≤ total_size l := by
  obtain ⟨pre, post, e1, _, _, _⟩ := mt_free_scan_some p l cur rest hs
  rw [e1, total_size_append, total_size_cons, List.length_append, List.length_cons]
  exact ⟨by omega, by omega⟩

/-- C19. Counter decrements never underflow: in every ledger state reached from the
initial state in which the number of records and the exact sum of their sizes fit in
`size_t`, whenever `mt_free` finds a matching record, `g_live_blocks` is at least 1 and
`g_live_bytes` is at least that record's size, so `g_live_blocks--` and
`g_live_bytes -= size` do not wrap around: the new values are the old ones minus 1 and
minus the size, as natural numbers. A release of `NULL` or of an address without a record
decrements neither counter, in any ledger state. -/
theorem counters_never_underflow (T : Target) (ops : List Op) (p : Ptr)
    (hcount : (run T Ledger.initial ops).g_head.length < 2 ^ T.size_bits)
    (hsum : ((run T Ledger.initial ops).g_head.map mt_record.size).sum < 2 ^ T.size_bits) :
    (∀ cur rest, p ≠ NULL →
      mt_free_scan p (run T Ledger.initial ops).g_head = some (cur, rest) →
        1 ≤ (run T Ledger.initial ops).g_live_blocks ∧
        cur.size ≤ (run T Ledger.initial ops).g_live_bytes ∧
        (mt_free T (run T Ledger.initial ops) p).1.g_live_blocks + 1
          = (run T Ledger.initial ops).g_live_blocks ∧
        (mt_free T (run T Ledger.initial ops) p).1.g_live_bytes + cur.size
          = (run T Ledger.initial ops).g_live_bytes) ∧
    (∀ s : Ledger, p = NULL ∨ mt_free_scan p s.g_head = none →
      (mt_free T s p).1.g_live_blocks = s.g_live_blocks ∧
      (mt_free T s p).1.g_live_bytes = s.g_live_bytes) := by
  obtain ⟨hb, hy⟩ := consistent_run T Ledger.initial ops (consistent_initial T)
  have hb2 : (run T Ledger.initial ops).g_live_blocks
      = (run T Ledger.initial ops).g_head.length := by
    rw [hb]
    exact Nat.mod_eq_of_lt hcount
  have hy2 : (run T Ledger.initial ops).g_live_bytes
      = total_size (run T Ledger.initial ops).g_head := by
    rw [hy]
    exact Nat.mod_eq_of_lt hsum
  refine ⟨?_, ?_⟩
  · intro cur rest hp hs
    obtain ⟨h1, h2⟩ := total_size_ge_of_scan p _ cur rest hs
    have hlt1 : (run T Ledger.initial ops).g_live_blocks < T.size_mod := by
      rw [hb2]
      exact hcount
    have hlt2 : (run T Ledger.initial ops).g_live_bytes < T.size_mod := by
      rw [hy2]
      exact hsum
    have hge1 : 1 ≤ (run T Ledger.initial ops).g_live_blocks := by
      rw [hb2]
      exact h1
    have hge2 : cur.size ≤ (run T Ledger.initial ops).g_live_bytes := by
      rw [hy2]
      exact h2
    rw [mt_free_found T _ p cur rest hp hs]
    refine ⟨hge1, hge2, ?_, ?_⟩
    · show size_sub T _ 1 + 1 = _
      rw [size_sub_exact T _ _ hge1 hlt1]
      omega
    · show size_sub T _ cur.size + cur.size = _
      rw [size_sub_exact T _ _ hge2 hlt2]
      omega
  · intro s h
    by_cases hp : p = NULL
    · subst hp
      simp [mt_free]
    · have hs : mt_free_scan p s.g_head = none := h.resolve_left hp
      simp [mt_free, hp, hs]

theorem counters_never_underflow_witness :
    1 ≤ (run demo_target Ledger.initial test_ops).g_live_blocks ∧
    4 ≤ (run demo_target Ledger.initial test_ops).g_live_bytes ∧
    (mt_free demo_target (run demo_target Ledger.initial test_ops) 4160).1.g_live_blocks + 1
      = (run demo_target Ledger.initial test_ops).g_live_blocks ∧
    (mt_free demo_target (run demo_target Ledger.initial test_ops) 4160).1.g_live_bytes + 4
      = (run demo_target Ledger.initial test_ops).g_live_bytes :=
  (counters_never_underflow demo_target test_ops 4160 (by decide) (by decide)).1
    { ptr := 4160, size := 4, file := "tests/test_memtracker.c", line := 12 } []
    (by decide) (by decide)

end Memtrack
